import Mathlib

/-!
Shallow embedding of the Filipino Mahjong rules engine and AI agent
(`filipinoMahjongLogic` and `enhancedMahjongAI`) of this repository.

TypeScript arrays become `List`, in-place mutation becomes explicit state
passing, `Array.findIndex` + `splice(i, 1)` becomes `List.eraseP`, and
`Array.sort` becomes `List.mergeSort` (both stable).  Monetary payouts are
rationals.  The transient display flags (`isRecentlyDrawn`,
`isRecentlyDiscarded`) are presentation hints never read by the rules logic
and are not modelled.  The `Tile` type, `tilesMatch` and `createTileSet`
live in `types/mahjong` / `utils/mahjongTiles`, which are not part of the
source tree; they are modelled from the spec where noted.
-/

namespace Mahjong

inductive Suit where
  | circles | bamboos | characters | winds | dragons | flower | season
deriving DecidableEq

inductive WindDir where
  | east | south | west | north
deriving DecidableEq

inductive DragonType where
  | red | green | white
deriving DecidableEq

/-- Modelled from the spec: a tile is an immutable value with a suit, a rank
(1–9 for numbered suits, a wind/dragon/flower/season identifier otherwise)
and a unique instance id; the 144 tiles are distinct instances. -/
structure Tile where
  suit : Suit
  value : Option Nat := none
  wind : Option WindDir := none
  dragon : Option DragonType := none
  flower : Option Nat := none
  season : Option Nat := none
  isBonus : Bool := false
  id : Nat
deriving DecidableEq

instance : Inhabited Tile := ⟨⟨Suit.circles, none, none, none, none, none, false, 0⟩⟩

/-- Modelled from the spec: `tilesMatch` (from `utils/mahjongTiles`, not in
the source tree) — two tiles match when suit and rank agree; the instance id
is ignored. -/
def tilesMatch (a b : Tile) : Bool :=
  a.suit == b.suit && a.value == b.value && a.wind == b.wind &&
    a.dragon == b.dragon && a.flower == b.flower && a.season == b.season

/-- `['circles', 'bamboos', 'characters'].includes(suit)`. -/
def isNumberedSuit (s : Suit) : Bool :=
  s == Suit.circles || s == Suit.bamboos || s == Suit.characters

/-- JavaScript truthiness of `tile.value`: defined and non-zero. -/
def truthyValue (v : Option Nat) : Bool :=
  match v with
  | some n => n != 0
  | none => false

inductive MeldType where
  | chow | pung | kong
deriving DecidableEq

structure Meld where
  id : String := "meld"
  type : MeldType
  tiles : List Tile
  isConcealed : Bool
  claimedFrom : Option Nat := none
deriving DecidableEq

inductive AmbitionType where
  | kang | secret | sagasa | thirteen_flowers | no_flowers_start
  | todas | escalera | siete_pares | no_flowers_end | all_up
  | all_down | all_chow | all_pung | single | bisaklat
deriving DecidableEq

structure Ambition where
  playerId : String
  type : AmbitionType
  payout : ℚ
  isInstant : Bool
deriving DecidableEq

structure Player where
  id : String
  name : String := ""
  hand : List Tile := []
  melds : List Meld := []
  flowers : List Tile := []
  discards : List Tile := []
  isDealer : Bool := false
deriving DecidableEq

instance : Inhabited Player := ⟨⟨"", "", [], [], [], [], false⟩⟩

/-- `players[playerIndex]` — array indexing with the default player out of
range (the source would crash there). -/
def playerAt (ps : List Player) (i : Nat) : Player := ps.getD i default

inductive Phase where
  | draw | discard
deriving DecidableEq

inductive GameStatus where
  | playing | finished
deriving DecidableEq

structure GameState where
  players : List Player
  currentPlayer : Nat
  dealer : Nat
  wall : List Tile
  flowerWall : List Tile
  discardPile : List Tile
  lastDiscard : Option Tile := none
  lastDrawnTile : Option Tile := none
  phase : Phase
  hasDrawnThisTurn : Bool
  status : GameStatus := GameStatus.playing
  winner : Option Nat := none
  ambitions : List Ambition := []
deriving DecidableEq

inductive ClaimType where
  | chow | pung | kong | win
deriving DecidableEq

structure ClaimAction where
  type : ClaimType
  playerId : String
deriving DecidableEq

/-! ### Win & Ambition Detector (`filipinoMahjongLogic`) -/

/-- The grouping key `` `${tile.suit}-${tile.value}-${tile.wind}-${tile.dragon}` ``
used by the tile-count maps. -/
structure TileKey where
  suit : Suit
  value : Option Nat
  wind : Option WindDir
  dragon : Option DragonType
deriving DecidableEq

def tileKey (t : Tile) : TileKey := ⟨t.suit, t.value, t.wind, t.dragon⟩

/-- The multiset of per-key counts of a hand (`tileCounts.values()`). -/
def keyCounts (hand : List Tile) : List Nat :=
  ((hand.map tileKey).dedup).map (fun k => (hand.map tileKey).count k)

/-- `canFormSequenceFromTiles`: three tiles of one numbered suit with
consecutive values. -/
def canFormSequenceFromTiles (tiles : List Tile) : Bool :=
  match tiles with
  | [t0, _, _] =>
    let suit := t0.suit
    if !isNumberedSuit suit then false
    else if !(tiles.all (fun t => t.suit == suit && truthyValue t.value)) then false
    else
      match (tiles.map (fun t => t.value.getD 0)).mergeSort (fun a b => decide (a ≤ b)) with
      | [a, b, c] => b == a + 1 && c == b + 1
      | _ => false
  | _ => false

/-- The loop of `checkSevenPairsWithTrio` over the grouped tile counts,
carrying the exact-pair count, the trio flag and the unpaired remainder;
`none` models the early `return false` branches (a second trio, or a group
of five or more). -/
def sevenPairsScan (hand : List Tile) (pairs : Nat) (hasTrio : Bool)
    (remaining : List Tile) : List TileKey → Option (Nat × Bool × List Tile)
  | [] => some (pairs, hasTrio, remaining)
  | k :: ks =>
    let cnt := (hand.map tileKey).count k
    if cnt == 2 then sevenPairsScan hand (pairs + 1) hasTrio remaining ks
    else if cnt == 3 then
      if hasTrio then none
      else sevenPairsScan hand pairs true remaining ks
    else if cnt == 1 then
      sevenPairsScan hand pairs hasTrio
        (remaining ++ hand.filter (fun t => tileKey t == k)) ks
    else if cnt == 4 then sevenPairsScan hand (pairs + 2) hasTrio remaining ks
    else none

/-- `checkSevenPairsWithTrio`: seven exact pairs plus one trio (a triplet
group, or three leftover singles forming a sequence). -/
def checkSevenPairsWithTrio (hand : List Tile) : Bool :=
  match sevenPairsScan hand 0 false [] ((hand.map tileKey).dedup) with
  | none => false
  | some (pairs, hasTrio, remaining) =>
    let hasTrio' :=
      if !hasTrio && remaining.length == 3 then canFormSequenceFromTiles remaining
      else hasTrio
    pairs == 7 && hasTrio'

/-- `isSietePares`: rule 1 accepts one group of 3 and seven groups of 2
(checked on the descending-sorted group sizes), otherwise rule 2 falls back
to `checkSevenPairsWithTrio`. -/
def isSietePares (hand : List Tile) : Bool :=
  if hand.length ≠ 17 then false
  else
    let counts := (keyCounts hand).mergeSort (fun a b => decide (b ≤ a))
    if counts.length == 8 && counts.headD 0 == 3 && (counts.drop 1).all (fun c => c == 2) then
      true
    else checkSevenPairsWithTrio hand

structure SearchResult where
  isValid : Bool
  trios : List (List Tile)
  pair : List Tile
deriving DecidableEq

/-- `findTriplet`: the first three tiles matching `tiles[startIndex]`. -/
def findTriplet (tiles : List Tile) (startIndex : Nat) : List Tile :=
  let baseTile := tiles.getD startIndex default
  let matchingTiles := tiles.filter (fun t => tilesMatch t baseTile)
  if matchingTiles.length ≥ 3 then matchingTiles.take 3 else []

/-- `findSequence`: `tiles[startIndex]` together with the first tiles of
value `+1` and `+2` in the same numbered suit. -/
def findSequence (tiles : List Tile) (startIndex : Nat) : List Tile :=
  let baseTile := tiles.getD startIndex default
  if !isNumberedSuit baseTile.suit || !truthyValue baseTile.value then []
  else
    let v := baseTile.value.getD 0
    match tiles.find? (fun t => t.suit == baseTile.suit && t.value == some (v + 1)),
        tiles.find? (fun t => t.suit == baseTile.suit && t.value == some (v + 2)) with
    | some nextTile, some nextNextTile => [baseTile, nextTile, nextNextTile]
    | _, _ => []

/-- The `for` loop body of `findTriosAndPair`: at each start index try a
triplet and then a sequence, recursing through `recur` on the remaining
tiles (removal is by instance id, as in the source). -/
def trioSearchLoop (tiles : List Tile) (recur : List Tile → SearchResult) :
    List Nat → SearchResult
  | [] => ⟨false, [], []⟩
  | i :: rest =>
    let triplet := findTriplet tiles i
    let tripletResult :=
      if triplet.length == 3 then
        let remainingTiles := tiles.filter (fun t => !(triplet.any (fun tt => tt.id == t.id)))
        let result := recur remainingTiles
        if result.isValid then some (SearchResult.mk true (triplet :: result.trios) result.pair)
        else none
      else none
    match tripletResult with
    | some r => r
    | none =>
      let sequence := findSequence tiles i
      if sequence.length == 3 then
        let remainingTiles := tiles.filter (fun t => !(sequence.any (fun st => st.id == t.id)))
        let result := recur remainingTiles
        if result.isValid then ⟨true, sequence :: result.trios, result.pair⟩
        else trioSearchLoop tiles recur rest
      else trioSearchLoop tiles recur rest

/-- `findTriosAndPair`: peel `neededTrios` trios by the left-to-right scan
(`i` ranging over `0 .. tiles.length - 3`), then require exactly one
matching pair to remain. -/
def findTriosAndPair (tiles : List Tile) : Nat → SearchResult
  | 0 =>
    match tiles with
    | [t0, t1] => if tilesMatch t0 t1 then ⟨true, [], [t0, t1]⟩ else ⟨false, [], []⟩
    | _ => ⟨false, [], []⟩
  | n + 1 =>
    if tiles.length < 3 then ⟨false, [], []⟩
    else trioSearchLoop tiles (fun rest => findTriosAndPair rest n) (List.range (tiles.length - 2))

/-- `findWinningCombination`.  A needed-trio count below zero never succeeds
in the source (the base case requires exactly zero); the explicit guard
keeps that behaviour under truncated `Nat` subtraction. -/
def findWinningCombination (tiles : List Tile) (existingMelds : List Meld) : SearchResult :=
  if existingMelds.length > 5 then ⟨false, [], []⟩
  else findTriosAndPair tiles (5 - existingMelds.length)

structure StdWinResult where
  isValid : Bool
  handType : String
deriving DecidableEq

/-- `checkStandardWin`: 5 trios + 1 pair via the backtracking search. -/
def checkStandardWin (hand : List Tile) (melds : List Meld) : StdWinResult :=
  let result := findWinningCombination hand melds
  if result.isValid then ⟨true, "Standard Win"⟩ else ⟨false, ""⟩

/-- `isEscalera`: at least three chow melds whose combined sorted values in
one suit are exactly 1–9. -/
def isEscalera (melds : List Meld) : Bool :=
  let chows := melds.filter (fun m => m.type == MeldType.chow)
  if chows.length < 3 then false
  else
    let chowSuits := (chows.map (fun c => (c.tiles.headD default).suit)).dedup
    chowSuits.any (fun suit =>
      let flatValues :=
        ((chows.filter (fun c => (c.tiles.headD default).suit == suit)).flatMap
          (fun c => c.tiles.map (fun t => t.value.getD 0))).mergeSort
          (fun a b => decide (a ≤ b))
      flatValues == [1, 2, 3, 4, 5, 6, 7, 8, 9])

structure WinCondition where
  isValid : Bool
  handType : String
  ambitions : List AmbitionType
  totalPayout : ℚ
  breakdown : List (String × ℚ)
deriving DecidableEq

/-- `isWinningHand`: reject unless the 17-tile total holds, then Siete Pares
first, then the standard 5-trios-+-pair shape with its additive bonus
ambitions. -/
def isWinningHand (hand : List Tile) (melds : List Meld) (flowers : List Tile) : WinCondition :=
  let totalTiles := hand.length + (melds.map (fun m => m.tiles.length)).sum
  if totalTiles ≠ 17 then ⟨false, "", [], 0, []⟩
  else if isSietePares hand then
    ⟨true, "Siete Pares", [AmbitionType.todas, AmbitionType.siete_pares], 3/2,
      [("Basic Win", 1), ("Siete Pares", 1/2)]⟩
  else
    let standardWin := checkStandardWin hand melds
    if standardWin.isValid then
      let esc := isEscalera melds
      let noFl := flowers.length == 0
      let allUp := (melds.filter (fun m => m.isConcealed)).length == melds.length &&
        melds.length > 0
      ⟨true, standardWin.handType,
        [AmbitionType.todas] ++ (if esc then [AmbitionType.escalera] else []) ++
          (if noFl then [AmbitionType.no_flowers_end] else []) ++
          (if allUp then [AmbitionType.all_up] else []),
        1 + (if esc then (1 : ℚ)/2 else 0) + (if noFl then (1 : ℚ)/4 else 0) +
          (if allUp then (1 : ℚ)/4 else 0),
        [("Basic Win", (1 : ℚ))] ++ (if esc then [("Escalera", (1 : ℚ)/2)] else []) ++
          (if noFl then [("No Flowers", (1 : ℚ)/4)] else []) ++
          (if allUp then [("All Up", (1 : ℚ)/4)] else [])⟩
    else ⟨false, "", [], 0, []⟩

/-! ### Claim Resolution -/

/-- `canFormSequence`: the discard is a numbered-suit tile and the hand has
tiles completing one of the three positional run patterns (discard low,
middle or high). -/
def canFormSequence (hand : List Tile) (discard : Tile) : Bool :=
  if !isNumberedSuit discard.suit then false
  else
    match discard.value with
    | none => false
    | some discardValue =>
      let suitTiles := hand.filter (fun t => t.suit == discard.suit && truthyValue t.value)
      (if discardValue ≤ 7 then
        suitTiles.any (fun t => t.value == some (discardValue + 1)) &&
          suitTiles.any (fun t => t.value == some (discardValue + 2))
      else false) ||
      (if 2 ≤ discardValue && discardValue ≤ 8 then
        suitTiles.any (fun t => t.value == some (discardValue - 1)) &&
          suitTiles.any (fun t => t.value == some (discardValue + 1))
      else false) ||
      (if 3 ≤ discardValue then
        suitTiles.any (fun t => t.value == some (discardValue - 1)) &&
          suitTiles.any (fun t => t.value == some (discardValue - 2))
      else false)

/-- `formChow`: the first positional pattern that completes, its three tiles
sorted by value (the source sorts each formed chow by `value`). -/
def formChow (hand : List Tile) (discard : Tile) : Option (List Tile) :=
  if !isNumberedSuit discard.suit then none
  else
    match discard.value with
    | none => none
    | some discardValue =>
      let suitTiles := hand.filter (fun t => t.suit == discard.suit && truthyValue t.value)
      let sortByValue := fun (l : List Tile) =>
        l.mergeSort (fun a b => decide (a.value.getD 0 ≤ b.value.getD 0))
      let pattern1 :=
        if discardValue ≤ 7 then
          match suitTiles.find? (fun t => t.value == some (discardValue + 1)),
              suitTiles.find? (fun t => t.value == some (discardValue + 2)) with
          | some tile1, some tile2 => some (sortByValue [discard, tile1, tile2])
          | _, _ => none
        else none
      match pattern1 with
      | some c => some c
      | none =>
        let pattern2 :=
          if 2 ≤ discardValue && discardValue ≤ 8 then
            match suitTiles.find? (fun t => t.value == some (discardValue - 1)),
                suitTiles.find? (fun t => t.value == some (discardValue + 1)) with
            | some tile1, some tile2 => some (sortByValue [tile1, discard, tile2])
            | _, _ => none
          else none
        match pattern2 with
        | some c => some c
        | none =>
          if 3 ≤ discardValue then
            match suitTiles.find? (fun t => t.value == some (discardValue - 2)),
                suitTiles.find? (fun t => t.value == some (discardValue - 1)) with
            | some tile1, some tile2 => some (sortByValue [tile1, tile2, discard])
            | _, _ => none
          else none

/-- `isValidClaim`: requires a claimant found by id and an open last
discard; chow needs a completable run (any seat may claim), pung two and
kong three matching tiles, win a complete 17-tile hand with the discard. -/
def isValidClaim (s : GameState) (claim : ClaimAction) : Bool :=
  match s.players.find? (fun p => p.id == claim.playerId), s.lastDiscard with
  | some player, some lastDiscard =>
    match claim.type with
    | ClaimType.chow => canFormSequence player.hand lastDiscard
    | ClaimType.pung => (player.hand.filter (fun t => tilesMatch t lastDiscard)).length ≥ 2
    | ClaimType.kong => (player.hand.filter (fun t => tilesMatch t lastDiscard)).length ≥ 3
    | ClaimType.win =>
      (isWinningHand (player.hand ++ [lastDiscard]) player.melds player.flowers).isValid
  | _, _ => false

/-! ### Game State & Turn Engine -/

/-- The drawing loop of `drawTile`: pop the wall front, auto-exposing bonus
tiles into the flower collection, until a regular tile enters the hand or
the wall runs out.  Returns the drawn tile (if any) and the updated wall,
hand and flowers. -/
def drawLoop : List Tile → List Tile → List Tile →
    Option Tile × List Tile × List Tile × List Tile
  | [], hand, flowers => (none, [], hand, flowers)
  | t :: wall, hand, flowers =>
    if t.isBonus then drawLoop wall hand (flowers ++ [t])
    else (some t, wall, hand ++ [t], flowers)

/-- `drawTile`: empty wall returns `none` untouched; otherwise run the
bonus-skipping loop, and only on a successful draw record the drawn tile,
enter discard phase and set the has-drawn flag. -/
def drawTile (s : GameState) (playerIndex : Nat) : Option Tile × GameState :=
  if s.wall.isEmpty then (none, s)
  else
    let player := playerAt s.players playerIndex
    let (drawn, wall', hand', flowers') := drawLoop s.wall player.hand player.flowers
    let players' := s.players.set playerIndex { player with hand := hand', flowers := flowers' }
    match drawn with
    | some t =>
      (some t,
        { s with wall := wall', players := players', lastDrawnTile := some t,
                 phase := Phase.discard, hasDrawnThisTurn := true })
    | none => (none, { s with wall := wall', players := players' })

/-- `discardTile`: a no-op unless a hand tile with the given id exists;
otherwise move it to the player's discard list and the shared pile, make it
the last discard, advance the turn and reset the phase.  Turn and phase are
not checked. -/
def discardTile (s : GameState) (playerIndex : Nat) (tile : Tile) : GameState :=
  let player := playerAt s.players playerIndex
  if player.hand.any (fun t => t.id == tile.id) then
    let player' := { player with hand := player.hand.eraseP (fun t => t.id == tile.id),
                                 discards := player.discards ++ [tile] }
    { s with players := s.players.set playerIndex player',
             discardPile := s.discardPile ++ [tile],
             lastDiscard := some tile,
             lastDrawnTile := none,
             currentPlayer := (s.currentPlayer + 1) % 4,
             phase := Phase.draw,
             hasDrawnThisTurn := false }
  else s

/-- `recordAmbition`: append to the ambition ledger, marking the instant
kinds. -/
def recordAmbition (s : GameState) (playerId : String) (type : AmbitionType)
    (payout : ℚ) : GameState :=
  { s with ambitions := s.ambitions ++
      [{ playerId := playerId, type := type, payout := payout,
         isInstant := type ∈ [AmbitionType.kang, AmbitionType.secret, AmbitionType.sagasa,
           AmbitionType.thirteen_flowers, AmbitionType.no_flowers_start] }] }

/-- `getAmbitionPayout`: the fixed payout table. -/
def getAmbitionPayout (ambition : AmbitionType) : ℚ :=
  match ambition with
  | AmbitionType.kang => 1/4
  | AmbitionType.secret => 1/2
  | AmbitionType.sagasa => 1/2
  | AmbitionType.thirteen_flowers => 1/4
  | AmbitionType.no_flowers_start => 1/4
  | AmbitionType.todas => 1
  | AmbitionType.escalera => 1/2
  | AmbitionType.siete_pares => 1/2
  | AmbitionType.no_flowers_end => 1/4
  | AmbitionType.all_up => 1/4
  | AmbitionType.all_down => 1/4
  | AmbitionType.all_chow => 1/4
  | AmbitionType.all_pung => 1/4
  | AmbitionType.single => 1/4
  | AmbitionType.bisaklat => 1

/-- The chow case of `processClaim`. -/
def processClaimChow (s : GameState) (playerIndex : Nat) (lastDiscard : Tile) :
    Bool × GameState :=
  let player := playerAt s.players playerIndex
  match formChow player.hand lastDiscard with
  | some chowTiles =>
    let discardPile' := s.discardPile.eraseP (fun t => t.id == lastDiscard.id)
    let handTilesToRemove := chowTiles.filter (fun t => t.id != lastDiscard.id)
    let hand' := handTilesToRemove.foldl
      (fun h tile => h.eraseP (fun t => t.id == tile.id)) player.hand
    let newMeld : Meld := { type := MeldType.chow, tiles := chowTiles,
                            isConcealed := false, claimedFrom := some s.currentPlayer }
    let player' := { player with hand := hand', melds := player.melds ++ [newMeld] }
    (true,
      { s with players := s.players.set playerIndex player',
               discardPile := discardPile',
               currentPlayer := playerIndex,
               phase := Phase.discard,
               lastDiscard := none,
               hasDrawnThisTurn := true })
  | none => (false, s)

/-- The pung case of `processClaim`. -/
def processClaimPung (s : GameState) (playerId : String) (playerIndex : Nat)
    (lastDiscard : Tile) : Bool × GameState :=
  let player := playerAt s.players playerIndex
  let pungTiles := (player.hand.filter (fun t => tilesMatch t lastDiscard)).take 2
  if pungTiles.length == 2 then
    let discardPile' := s.discardPile.eraseP (fun t => t.id == lastDiscard.id)
    let hand' := pungTiles.foldl (fun h tile => h.eraseP (fun t => t.id == tile.id)) player.hand
    let newMeld : Meld := { type := MeldType.pung, tiles := lastDiscard :: pungTiles,
                            isConcealed := false, claimedFrom := some s.currentPlayer }
    let player' := { player with hand := hand', melds := player.melds ++ [newMeld] }
    let s' := recordAmbition
      { s with players := s.players.set playerIndex player', discardPile := discardPile' }
      playerId AmbitionType.kang (1/4)
    (true,
      { s' with currentPlayer := playerIndex,
                phase := Phase.discard,
                lastDiscard := none,
                hasDrawnThisTurn := true })
  else (false, s)

/-- The meld-forming half of the kong case of `processClaim`: remove the
claimed tile from the shared pile and the three matching tiles from the
hand, and append the exposed kong meld. -/
def applyKongMeld (s : GameState) (pi : Nat) (d : Tile) : GameState :=
  let player := playerAt s.players pi
  let kongTiles := (player.hand.filter (fun t => tilesMatch t d)).take 3
  let discardPile' := s.discardPile.eraseP (fun t => t.id == d.id)
  let hand' := kongTiles.foldl (fun h tile => h.eraseP (fun t => t.id == tile.id)) player.hand
  let newMeld : Meld := { type := MeldType.kong, tiles := d :: kongTiles,
                          isConcealed := false, claimedFrom := some s.currentPlayer }
  { s with players := s.players.set pi
             { player with hand := hand', melds := player.melds ++ [newMeld] },
           discardPile := discardPile' }

/-- The kong case of `processClaim`: after forming the meld the claimant
draws exactly one replacement through `drawTile` (the same bonus-skipping
logic) before entering discard phase. -/
def processClaimKong (s : GameState) (playerId : String) (playerIndex : Nat)
    (lastDiscard : Tile) : Bool × GameState :=
  let player := playerAt s.players playerIndex
  let kongTiles := (player.hand.filter (fun t => tilesMatch t lastDiscard)).take 3
  if kongTiles.length == 3 then
    let s₁ := applyKongMeld s playerIndex lastDiscard
    let s₂ := (drawTile s₁ playerIndex).2
    let s₃ := recordAmbition s₂ playerId AmbitionType.kang (1/4)
    (true,
      { s₃ with currentPlayer := playerIndex,
                phase := Phase.discard,
                lastDiscard := none,
                hasDrawnThisTurn := true })
  else (false, s)

/-- The win case of `processClaim`: finish the game, record the winner and
append every ambition the win detector reports.  The last discard is left
as it is. -/
def processClaimWin (s : GameState) (playerId : String) (playerIndex : Nat)
    (lastDiscard : Tile) : Bool × GameState :=
  let player := playerAt s.players playerIndex
  let winCondition := isWinningHand (player.hand ++ [lastDiscard]) player.melds player.flowers
  if winCondition.isValid then
    let s₁ := { s with status := GameStatus.finished, winner := some playerIndex }
    let s₂ := winCondition.ambitions.foldl
      (fun st a => recordAmbition st playerId a (getAmbitionPayout a)) s₁
    (true, s₂)
  else (false, s)

/-- `processClaim`: validate, locate the claimant by id, and dispatch on the
claim kind; any falling-through case rejects with the state unchanged. -/
def processClaim (s : GameState) (claim : ClaimAction) : Bool × GameState :=
  if !isValidClaim s claim then (false, s)
  else
    match s.players.findIdx? (fun p => p.id == claim.playerId), s.lastDiscard with
    | some playerIndex, some lastDiscard =>
      match claim.type with
      | ClaimType.chow => processClaimChow s playerIndex lastDiscard
      | ClaimType.pung => processClaimPung s claim.playerId playerIndex lastDiscard
      | ClaimType.kong => processClaimKong s claim.playerId playerIndex lastDiscard
      | ClaimType.win => processClaimWin s claim.playerId playerIndex lastDiscard
    | _, _ => (false, s)

/-! ### Setup (`initializeGame` and its helpers) -/

/-- One backward scan (`for i = hand.length - 1 downto 0`) of
`ensureCorrectHandSize`: a bonus tile at the current index moves to the
flowers, and a replacement from the wall (when non-empty) is appended to the
hand; the returned flag mirrors `hasFlowers` (some splice happened). -/
def ensureScan : Nat → List Tile → List Tile → List Tile →
    List Tile × List Tile × List Tile × Bool
  | 0, hand, flowers, wall => (hand, flowers, wall, false)
  | i + 1, hand, flowers, wall =>
    match hand.get? i with
    | some t =>
      if t.isBonus then
        let hand' := hand.eraseIdx i
        let flowers' := flowers ++ [t]
        match wall with
        | [] =>
          let (h, f, w, _) := ensureScan i hand' flowers' []
          (h, f, w, true)
        | r :: wall' =>
          let (h, f, w, _) := ensureScan i (hand' ++ [r]) flowers' wall'
          (h, f, w, true)
      else ensureScan i hand flowers wall
    | none => ensureScan i hand flowers wall

/-- The outer `while (hasFlowers)` loop of `ensureCorrectHandSize`, fuelled:
every pass that finds a bonus tile moves at least one bonus tile out of the
hand-plus-wall pool, so `bonus count + 1` passes always suffice; the fuel
only makes the termination of the source loop explicit. -/
def ensureLoop : Nat → List Tile → List Tile → List Tile →
    List Tile × List Tile × List Tile
  | 0, hand, flowers, wall => (hand, flowers, wall)
  | fuel + 1, hand, flowers, wall =>
    let (h, f, w, flag) := ensureScan hand.length hand flowers wall
    if flag then ensureLoop fuel h f w else (h, f, w)

/-- The final `while (hand.length < 16 && wall.length > 0)` top-up of
`ensureCorrectHandSize`: draw from the wall, diverting bonus tiles to the
flowers, until 16 hand tiles are reached or the wall runs out. -/
def fillHand (hand flowers : List Tile) : List Tile → List Tile × List Tile × List Tile
  | [] => (hand, flowers, [])
  | t :: wall =>
    if hand.length < 16 then
      if t.isBonus then fillHand hand (flowers ++ [t]) wall
      else fillHand (hand ++ [t]) flowers wall
    else (hand, flowers, t :: wall)

def countBonus (l : List Tile) : Nat := (l.filter (fun t => t.isBonus)).length

/-- `ensureCorrectHandSize`: expose and replace every bonus tile in the
player's hand, then top the hand up to 16 tiles from the wall. -/
def ensureCorrectHandSize (s : GameState) (playerIndex : Nat) : GameState :=
  let player := playerAt s.players playerIndex
  let (h1, f1, w1) := ensureLoop (countBonus player.hand + countBonus s.wall + 1)
    player.hand player.flowers s.wall
  let (h2, f2, w2) := fillHand h1 f1 w1
  { s with players := s.players.set playerIndex { player with hand := h2, flowers := f2 },
           wall := w2 }

/-- The deal order of `initializeGame`: four rounds of four-tile batches to
players 0, 1, 2, 3. -/
def dealOrder : List Nat := (List.range 4).flatMap (fun _ => List.range 4)

/-- One four-tile batch of the deal. -/
def dealStep (st : List Tile × List Player) (pi : Nat) : List Tile × List Player :=
  let (wall, ps) := st
  let p := playerAt ps pi
  (wall.drop 4, ps.set pi { p with hand := p.hand ++ wall.take 4 })

/-- `initializeGame`.  The source's shuffles and its random dealer pick are
its only randomness; both are inputs here: `tiles` is the already shuffled
144-tile set (the inner re-shuffles of the two walls are absorbed into the
same permutation) and `dealerIndex` the randomly chosen dealer.  The split
into bonus and regular tiles, the four-round deal, the flower
auto-exposure and the dealer's 17th draw follow the source. -/
def initializeGame (players : List Player) (tiles : List Tile) (dealerIndex : Nat) : GameState :=
  let bonusTiles := tiles.filter (fun t => t.isBonus)
  let regularTiles := tiles.filter (fun t => !t.isBonus)
  let ps0 := players.enum.map (fun ip =>
    { ip.2 with hand := ([] : List Tile), melds := ([] : List Meld),
                flowers := ([] : List Tile), discards := ([] : List Tile),
                isDealer := ip.1 == dealerIndex })
  let (wall', ps1) := dealOrder.foldl dealStep (regularTiles, ps0)
  let s0 : GameState :=
    { players := ps1, currentPlayer := dealerIndex, dealer := dealerIndex,
      wall := wall', flowerWall := bonusTiles, discardPile := [],
      phase := Phase.discard, hasDrawnThisTurn := false }
  let s1 := (List.range s0.players.length).foldl (fun st i => ensureCorrectHandSize st i) s0
  (drawTile s1 dealerIndex).2

/-- Modelled from the spec: `createTileSet` (from `utils/mahjongTiles`, not
in the source tree) — the 144-tile set: four copies of ranks 1–9 in each of
the three numbered suits (108), four copies of each wind (16) and dragon
(12), and 8 distinct bonus tiles (4 flowers, 4 seasons); every tile carries
a distinct instance id. -/
def createTileSet : List Tile :=
  let numbered : List Tile := [Suit.circles, Suit.bamboos, Suit.characters].flatMap (fun s =>
    (List.range 9).flatMap (fun v =>
      List.replicate 4 { suit := s, value := some (v + 1), id := 0 }))
  let windTiles : List Tile := [WindDir.east, WindDir.south, WindDir.west,
    WindDir.north].flatMap (fun w => List.replicate 4 { suit := Suit.winds, wind := some w, id := 0 })
  let dragonTiles : List Tile := [DragonType.red, DragonType.green, DragonType.white].flatMap
    (fun d => List.replicate 4 { suit := Suit.dragons, dragon := some d, id := 0 })
  let flowerTiles : List Tile := (List.range 4).map (fun i =>
    { suit := Suit.flower, flower := some (i + 1), isBonus := true, id := 0 })
  let seasonTiles : List Tile := (List.range 4).map (fun i =>
    { suit := Suit.season, season := some (i + 1), isBonus := true, id := 0 })
  ((numbered ++ windTiles ++ dragonTiles ++ flowerTiles ++ seasonTiles).enum).map
    (fun it => { it.2 with id := it.1 })

/-! ### AI discard evaluators (`enhancedMahjongAI`) -/

/-- `tile.value && tile.value >= 4 && tile.value <= 6` (the flexible middle
range), with JavaScript truthiness on `tile.value`. -/
def midValue (t : Tile) : Bool :=
  truthyValue t.value && decide (4 ≤ t.value.getD 0) && decide (t.value.getD 0 ≤ 6)

/-- `evaluateSequencePotential`: +30 for neighbours on both sides, +15 for
one neighbour, +10 for a two-gap tile. -/
def evaluateSequencePotential (tile : Tile) (hand : List Tile) : Int :=
  if !truthyValue tile.value || !isNumberedSuit tile.suit then 0
  else
    let suitTiles := hand.filter (fun t => t.suit == tile.suit && truthyValue t.value)
    let value := tile.value.getD 0
    let hasLower := suitTiles.any (fun t => t.value == some (value - 1))
    let hasHigher := suitTiles.any (fun t => t.value == some (value + 1))
    let hasLower2 := suitTiles.any (fun t => t.value == some (value - 2))
    let hasHigher2 := suitTiles.any (fun t => t.value == some (value + 2))
    (if hasLower && hasHigher then 30 else 0) +
      (if hasLower || hasHigher then 15 else 0) +
      (if hasLower2 || hasHigher2 then 10 else 0)

/-- `evaluateDangerLevel`: −5 per matching prior discard, +10 for a middle
rank, −5 for an honor suit. -/
def evaluateDangerLevel (tile : Tile) (gameState : GameState) : Int :=
  let allDiscards := gameState.players.flatMap (fun p => p.discards)
  let sameTypeDiscards := allDiscards.filter (fun t => tilesMatch t tile)
  (-5) * (sameTypeDiscards.length : Int) +
    (if midValue tile then 10 else 0) +
    (if tile.suit == Suit.winds || tile.suit == Suit.dragons then -5 else 0)

/-- `evaluateDiscardValue` (lower = better to discard): base 20 for honors
else 10, −50/−25 for near-kong/near-pung protection, minus the sequence
potential for numbered tiles, plus the danger adjustment, +5 for terminals,
−5 for middle ranks. -/
def evaluateDiscardValue (tile : Tile) (player : Player) (gameState : GameState) : Int :=
  let base : Int := if tile.suit == Suit.winds || tile.suit == Suit.dragons then 20 else 10
  let remainingHand := player.hand.filter (fun t => t.id != tile.id)
  let matchingTiles := remainingHand.filter (fun t => tilesMatch t tile)
  let matchAdj : Int :=
    if matchingTiles.length ≥ 2 then -50
    else if matchingTiles.length == 1 then -25
    else 0
  let seqAdj : Int :=
    if isNumberedSuit tile.suit && truthyValue tile.value then
      -(evaluateSequencePotential tile remainingHand)
    else 0
  let danger := evaluateDangerLevel tile gameState
  let termAdj : Int := if tile.value == some 1 || tile.value == some 9 then 5 else 0
  let midAdj : Int := if midValue tile then -5 else 0
  base + matchAdj + seqAdj + danger + termAdj + midAdj

/-- The `bestStrategy` field of the winning analysis consumed by
`evaluateDiscardValueForWin`. -/
inductive Strategy where
  | pairs | sequences | mixed
deriving DecidableEq

/-- `evaluateDiscardValueForWin` (conservative mode, used when 1–2 tiles
from winning): base +50; under the pairs strategy +100 for breaking the
sole remaining pair match and −20 for isolated tiles; otherwise doubled
sequence potential plus +150/+75 for breaking near-triplets/pairs.  The
matching test compares suit, value, wind and dragon fields directly. -/
def evaluateDiscardValueForWin (tile : Tile) (player : Player) (_gameState : GameState)
    (bestStrategy : Strategy) : Int :=
  let base : Int := 50
  if bestStrategy == Strategy.pairs then
    let matchingTiles := player.hand.filter (fun t =>
      t.suit == tile.suit && t.value == tile.value && t.wind == tile.wind &&
        t.dragon == tile.dragon && t.id != tile.id)
    base + (if matchingTiles.length == 1 then 100
            else if matchingTiles.length == 0 then -20
            else 0)
  else
    let seqAdj : Int :=
      if isNumberedSuit tile.suit && truthyValue tile.value then
        2 * evaluateSequencePotential tile (player.hand.filter (fun t => t.id != tile.id))
      else 0
    let matchingTiles := player.hand.filter (fun t =>
      t.suit == tile.suit && t.value == tile.value && t.wind == tile.wind &&
        t.dragon == tile.dragon && t.id != tile.id)
    base + seqAdj + (if matchingTiles.length ≥ 2 then 150
                     else if matchingTiles.length == 1 then 75
                     else 0)

/-! ### Specification-side notions used by the claims -/

/-- All tiles a player holds: concealed hand, exposed meld tiles and the
flower collection (the per-player discard list mirrors the shared pile and
is not a holder of its own). -/
def playerTiles (p : Player) : List Tile :=
  p.hand ++ p.melds.flatMap (fun m => m.tiles) ++ p.flowers

/-- The tile holders of a state: wall, flower wall, every player's hand,
meld tiles and flower collection, and the shared discard pile.  (The
per-player discard lists are chronological shadows: a discard stays on them
even after a claim moves the tile into a meld, so they are not holders.) -/
def collection (s : GameState) : List Tile :=
  s.wall ++ s.flowerWall ++ s.players.flatMap playerTiles ++ s.discardPile

/-- The number of tiles across all holders. -/
def conservedSum (s : GameState) : Nat := (collection s).length

/-- The sum named by the tile-conservation claim: wall plus every player's
hand, meld tiles, per-player discard list and flower collection — no flower
wall and no shared discard pile. -/
def claimSum (s : GameState) : Nat :=
  s.wall.length +
    (s.players.map (fun p => p.hand.length + (p.melds.map (fun m => m.tiles.length)).sum +
      p.discards.length + p.flowers.length)).sum

/-- The multiset of instance ids of a tile list. -/
def tileBag (l : List Tile) : Multiset Nat := (l.map (fun t => t.id) : Multiset Nat)

/-- The multiset of instance ids across all holders of a state. -/
def idBag (s : GameState) : Multiset Nat := tileBag (collection s)

/-- All holder tiles carry distinct instance ids. -/
def NodupIds (s : GameState) : Prop := ((collection s).map (fun t => t.id)).Nodup

/-- An open last discard is (by id) a tile of the shared discard pile. -/
def LastDiscardLinked (s : GameState) : Prop :=
  ∀ t, s.lastDiscard = some t → t.id ∈ s.discardPile.map (fun x => x.id)

/-- States reachable from a start state by the engine operations.  A draw
step carries a valid player index (the source dereferences
`players[playerIndex]` and would crash otherwise); discards and claims take
arbitrary arguments, as they validate internally. -/
inductive Reachable : GameState → GameState → Prop
  | refl (s : GameState) : Reachable s s
  | draw {s₀ s : GameState} (i : Nat) (h : Reachable s₀ s) (hi : i < s.players.length) :
      Reachable s₀ (drawTile s i).2
  | disc {s₀ s : GameState} (i : Nat) (t : Tile) (h : Reachable s₀ s) :
      Reachable s₀ (discardTile s i t)
  | claim {s₀ s : GameState} (c : ClaimAction) (h : Reachable s₀ s) :
      Reachable s₀ (processClaim s c).2

/-- The chow-validity property as the claim states it: the discard is a
numbered-suit tile and the hand holds two tiles of that suit whose ranks,
together with the discard's, are three consecutive ranks. -/
def ChowSpec (hand : List Tile) (d : Tile) : Prop :=
  isNumberedSuit d.suit = true ∧
    ∃ a ∈ hand, ∃ b ∈ hand, a.suit = d.suit ∧ b.suit = d.suit ∧
      ∃ lo x y v, 1 ≤ lo ∧ lo + 2 ≤ 9 ∧
        a.value = some x ∧ b.value = some y ∧ d.value = some v ∧
        ({x, y, v} : Multiset Nat) = {lo, lo + 1, lo + 2}

/-- The claimant's hand after a kong claim removed the three matching
tiles (and before the replacement draw). -/
def kongHand (s : GameState) (pi : Nat) (d : Tile) : List Tile :=
  (((playerAt s.players pi).hand.filter (fun t => tilesMatch t d)).take 3).foldl
    (fun h tile => h.eraseP (fun t => t.id == tile.id)) (playerAt s.players pi).hand

/-- The key multiset named by the Siete Pares claim: a triplet of identity
`ks 0` plus seven pairs of the distinct identities `ks 1` … `ks 7`. -/
def keyTarget (ks : Fin 8 → TileKey) : List TileKey :=
  [ks 0, ks 0, ks 0, ks 1, ks 1, ks 2, ks 2, ks 3, ks 3,
   ks 4, ks 4, ks 5, ks 5, ks 6, ks 6, ks 7, ks 7]

/-- Shorthand for a numbered tile. -/
def numTile (s : Suit) (v : Nat) (id : Nat) : Tile := { suit := s, value := some v, id := id }

/-- Shorthand for a wind tile. -/
def windTile (w : WindDir) (id : Nat) : Tile := { suit := Suit.winds, wind := some w, id := id }

instance (s : GameState) : Decidable (NodupIds s) := by
  unfold NodupIds; infer_instance

instance (s : GameState) : Decidable (LastDiscardLinked s) :=
  match h : s.lastDiscard with
  | none => Decidable.isTrue (fun t ht => by rw [h] at ht; cases ht)
  | some u =>
    if hu : u.id ∈ s.discardPile.map (fun x => x.id) then
      Decidable.isTrue (fun t ht => by rw [h] at ht; cases ht; exact hu)
    else
      Decidable.isFalse (fun hall => hu (hall u h))

/-! ### Concrete fixtures for the closed theorems -/

def samplePlayers : List Player :=
  [{ id := "p0", name := "P0" }, { id := "p1", name := "P1" },
   { id := "p2", name := "P2" }, { id := "p3", name := "P3" }]

/-- The initial state on the canonical (identity-shuffled) tile set with
dealer 0. -/
def sInit : GameState := initializeGame samplePlayers createTileSet 0

def tE1 : Tile := windTile WindDir.east 100
def tE2 : Tile := windTile WindDir.east 101
def tC1 : Tile := numTile Suit.circles 1 102
def tC2 : Tile := numTile Suit.circles 2 103
def tC3 : Tile := numTile Suit.circles 3 104

/-- An exposed 1-2-3 bamboos chow meld with fresh ids from `base`. -/
def mChow (base : Nat) : Meld :=
  { type := MeldType.chow,
    tiles := [numTile Suit.bamboos 1 base, numTile Suit.bamboos 2 (base + 1),
      numTile Suit.bamboos 3 (base + 2)],
    isConcealed := false }

def fourMelds : List Meld := [mChow 200, mChow 210, mChow 220, mChow 230]

/-- Seven circle pairs (ranks 2–8) plus a triplet of rank-1 circles. -/
def spHand : List Tile :=
  [numTile Suit.circles 1 300, numTile Suit.circles 1 301, numTile Suit.circles 1 302,
   numTile Suit.circles 2 303, numTile Suit.circles 2 304,
   numTile Suit.circles 3 305, numTile Suit.circles 3 306,
   numTile Suit.circles 4 307, numTile Suit.circles 4 308,
   numTile Suit.circles 5 309, numTile Suit.circles 5 310,
   numTile Suit.circles 6 311, numTile Suit.circles 6 312,
   numTile Suit.circles 7 313, numTile Suit.circles 7 314,
   numTile Suit.circles 8 315, numTile Suit.circles 8 316]

/-- `spHand` without its first tile: 16 tiles one short of Siete Pares. -/
def winHand16 : List Tile := spHand.drop 1

def dWin : Tile := numTile Suit.circles 1 400

/-- Player 1 has just discarded `dWin`; player 0's 16 tiles plus it form a
Siete Pares hand. -/
def sWin : GameState :=
  { players := [{ id := "p0", name := "P0", hand := winHand16 },
                { id := "p1", name := "P1", discards := [dWin] },
                { id := "p2", name := "P2" }, { id := "p3", name := "P3" }],
    currentPlayer := 1, dealer := 0, wall := [numTile Suit.bamboos 9 500],
    flowerWall := [], discardPile := [dWin], lastDiscard := some dWin,
    phase := Phase.draw, hasDrawnThisTurn := false }

/-- Draw phase, player 0 to act; players 0 and 1 hold one tile each. -/
def sD : GameState :=
  { players := [{ id := "p0", name := "P0", hand := [tC1] },
                { id := "p1", name := "P1", hand := [tC2] },
                { id := "p2", name := "P2" }, { id := "p3", name := "P3" }],
    currentPlayer := 0, dealer := 0, wall := [], flowerWall := [], discardPile := [],
    phase := Phase.draw, hasDrawnThisTurn := false }

def bTile : Tile := { suit := Suit.flower, flower := some 1, isBonus := true, id := 600 }

/-- A wall holding a single bonus tile. -/
def sB : GameState :=
  { players := [{ id := "p0", name := "P0", hand := [tC1] },
                { id := "p1", name := "P1" },
                { id := "p2", name := "P2" }, { id := "p3", name := "P3" }],
    currentPlayer := 0, dealer := 0, wall := [bTile], flowerWall := [], discardPile := [],
    phase := Phase.draw, hasDrawnThisTurn := false }

def dK : Tile := numTile Suit.circles 9 903

/-- Player 0 holds three tiles matching the fresh discard `dK`; the wall is
a bonus tile followed by a regular tile. -/
def sK : GameState :=
  { players := [{ id := "p0", name := "P0",
                  hand := [numTile Suit.circles 9 900, numTile Suit.circles 9 901,
                    numTile Suit.circles 9 902, tC1] },
                { id := "p1", name := "P1", discards := [dK] },
                { id := "p2", name := "P2" }, { id := "p3", name := "P3" }],
    currentPlayer := 1, dealer := 0, wall := [bTile, numTile Suit.bamboos 5 904],
    flowerWall := [], discardPile := [dK], lastDiscard := some dK,
    phase := Phase.draw, hasDrawnThisTurn := false }

def dP : Tile := numTile Suit.bamboos 7 910

/-- Player 0 holds two tiles matching the fresh discard `dP`. -/
def sPung : GameState :=
  { players := [{ id := "p0", name := "P0",
                  hand := [numTile Suit.bamboos 7 911, numTile Suit.bamboos 7 912, tC1] },
                { id := "p1", name := "P1", discards := [dP] },
                { id := "p2", name := "P2" }, { id := "p3", name := "P3" }],
    currentPlayer := 1, dealer := 0, wall := [], flowerWall := [], discardPile := [dP],
    lastDiscard := some dP, phase := Phase.draw, hasDrawnThisTurn := false }

def dChow : Tile := numTile Suit.circles 1 920

/-- Player 0 can chow the fresh rank-1 discard with the 2 and 3 of circles. -/
def sChow : GameState :=
  { players := [{ id := "p0", name := "P0",
                  hand := [numTile Suit.circles 2 921, numTile Suit.circles 3 922, tE1] },
                { id := "p1", name := "P1", discards := [dChow] },
                { id := "p2", name := "P2" }, { id := "p3", name := "P3" }],
    currentPlayer := 1, dealer := 0, wall := [], flowerWall := [], discardPile := [dChow],
    lastDiscard := some dChow, phase := Phase.draw, hasDrawnThisTurn := false }

/-- A player holding a pair of 5-circles (used by the AI-scoring witness). -/
def pPair : Player :=
  { id := "p0", name := "P0",
    hand := [numTile Suit.circles 5 800, numTile Suit.circles 5 801] }

/-! ### Helper lemmas -/

theorem getD_set_self (l : List α) (i : Nat) (a d : α) :
    (l.set i a).getD i d = if i < l.length then a else d := by
  by_cases hi : i < l.length
  · simp [List.getD, List.getElem?_set_self hi, hi]
  · rw [List.set_eq_of_length_le (Nat.le_of_not_lt hi)]
    simp [List.getD, List.getElem?_eq_none (Nat.le_of_not_lt hi), hi]

theorem playerAt_set_self (ps : List Player) (i : Nat) (p : Player) :
    playerAt (ps.set i p) i = if i < ps.length then p else playerAt ps i := by
  unfold playerAt
  rw [getD_set_self]
  by_cases hi : i < ps.length
  · simp [hi]
  · simp [hi, List.getElem?_eq_none (Nat.le_of_not_lt hi)]

theorem drawLoop_none_iff (wall hand flowers : List Tile) :
    (drawLoop wall hand flowers).1 = none ↔ ∀ t ∈ wall, t.isBonus = true := by
  induction wall generalizing flowers with
  | nil => simp [drawLoop]
  | cons t w ih =>
    by_cases hb : t.isBonus
    · simp [drawLoop, hb, ih]
    · simp [drawLoop, hb]

theorem drawLoop_all_bonus (wall hand flowers : List Tile)
    (h : ∀ t ∈ wall, t.isBonus = true) :
    drawLoop wall hand flowers = (none, [], hand, flowers ++ wall) := by
  induction wall generalizing flowers with
  | nil => simp [drawLoop]
  | cons t w ih =>
    have hb := h t (by simp)
    rw [drawLoop, if_pos hb, ih (flowers ++ [t]) (fun u hu => h u (List.mem_cons_of_mem _ hu))]
    simp

theorem foldl_recordAmbition_eq (pid : String) (l : List AmbitionType) :
    ∀ s : GameState,
      ∃ amb, l.foldl (fun st a => recordAmbition st pid a (getAmbitionPayout a)) s =
        { s with ambitions := amb } := by
  induction l with
  | nil => intro s; exact ⟨s.ambitions, rfl⟩
  | cons a l ih =>
    intro s
    obtain ⟨amb, hamb⟩ := ih (recordAmbition s pid a (getAmbitionPayout a))
    exact ⟨amb, by rw [List.foldl_cons, hamb]; rfl⟩

theorem processClaimChow_success_fields (s : GameState) (pi : Nat) (d : Tile)
    (h : (processClaimChow s pi d).1 = true) :
    (processClaimChow s pi d).2.lastDiscard = none := by
  cases hfc : formChow (playerAt s.players pi).hand d with
  | none => simp only [processClaimChow, hfc] at h; exact absurd h (by simp)
  | some ct => simp only [processClaimChow, hfc]

theorem processClaimPung_success_fields (s : GameState) (pid : String) (pi : Nat) (d : Tile)
    (h : (processClaimPung s pid pi d).1 = true) :
    (processClaimPung s pid pi d).2.lastDiscard = none := by
  by_cases hp :
      ((((playerAt s.players pi).hand.filter (fun t => tilesMatch t d)).take 2).length == 2) =
        true
  · simp only [processClaimPung, hp, if_true]
  · simp only [processClaimPung, Bool.not_eq_true 
      ((((playerAt s.players pi).hand.filter (fun t => tilesMatch t d)).take 2).length == 2)]
      at hp
    simp only [processClaimPung, hp, if_false] at h
    exact absurd h (by simp)

theorem processClaimKong_success_fields (s : GameState) (pid : String) (pi : Nat) (d : Tile)
    (h : (processClaimKong s pid pi d).1 = true) :
    (processClaimKong s pid pi d).2.lastDiscard = none := by
  by_cases hp :
      ((((playerAt s.players pi).hand.filter (fun t => tilesMatch t d)).take 3).length == 3) =
        true
  · simp only [processClaimKong, hp, if_true]
  · simp only [processClaimKong, Bool.not_eq_true
      ((((playerAt s.players pi).hand.filter (fun t => tilesMatch t d)).take 3).length == 3)]
      at hp
    simp only [processClaimKong, hp, if_false] at h
    exact absurd h (by simp)

theorem processClaimWin_success_fields (s : GameState) (pid : String) (pi : Nat) (d : Tile)
    (h : (processClaimWin s pid pi d).1 = true) :
    (processClaimWin s pid pi d).2.lastDiscard = s.lastDiscard ∧
    (processClaimWin s pid pi d).2.status = GameStatus.finished ∧
    (processClaimWin s pid pi d).2.winner = some pi := by
  by_cases hw : (isWinningHand ((playerAt s.players pi).hand ++ [d])
      (playerAt s.players pi).melds (playerAt s.players pi).flowers).isValid = true
  · obtain ⟨amb, hamb⟩ := foldl_recordAmbition_eq pid
      (isWinningHand ((playerAt s.players pi).hand ++ [d])
        (playerAt s.players pi).melds (playerAt s.players pi).flowers).ambitions
      { s with status := GameStatus.finished, winner := some pi }
    simp only [processClaimWin, hw, if_true, hamb]
    simp
  · simp only [Bool.not_eq_true] at hw
    simp only [processClaimWin, hw, if_false] at h
    exact absurd h (by simp)

/-! ### Claim theorems -/

/-- C6: whenever the total tile count (hand length plus the meld tiles) is
not exactly 17, `isWinningHand` rejects with an empty hand type, no
ambitions and zero payout — in particular every 16- or 18-tile total. -/
theorem isWinningHand_rejects_non17 (hand : List Tile) (melds : List Meld)
    (flowers : List Tile)
    (h : hand.length + (melds.map (fun m => m.tiles.length)).sum ≠ 17) :
    isWinningHand hand melds flowers = ⟨false, "", [], 0, []⟩ := by
  simp [isWinningHand, h]

/-- Witness for C6 at a concrete 16-tile total. -/
theorem isWinningHand_rejects_non17_witness :
    (winHand16.length + (([] : List Meld).map (fun m => m.tiles.length)).sum ≠ 17) ∧
      isWinningHand winHand16 [] [] = ⟨false, "", [], 0, []⟩ :=
  ⟨by decide, isWinningHand_rejects_non17 _ _ _ (by decide)⟩

/-- C4 (amended): `discardTile` is a no-op — the whole state unchanged —
whenever the player's hand holds no tile with the discarded tile's id; the
turn and the phase are not checked. -/
theorem discardTile_noop_of_tile_not_in_hand (s : GameState) (i : Nat) (t : Tile)
    (h : ∀ u ∈ (playerAt s.players i).hand, u.id ≠ t.id) :
    discardTile s i t = s := by
  have hany : (playerAt s.players i).hand.any (fun u => u.id == t.id) = false := by
    rw [List.any_eq_false]
    intro u hu
    simpa using h u hu
  simp only [discardTile, hany, Bool.false_eq_true, if_false]

/-- Witness for C4's amended no-op direction. -/
theorem discardTile_noop_witness :
    (∀ u ∈ (playerAt sD.players 0).hand, u.id ≠ tC2.id) ∧ discardTile sD 0 tC2 = sD :=
  ⟨by decide, discardTile_noop_of_tile_not_in_hand _ _ _ (by decide)⟩

/-- Counterexample to C4 as stated: in `sD` it is player 0's turn and the
phase is `draw`, yet player 1's discard of a tile from their own hand is
applied in full (the state changes) instead of being a no-op. -/
theorem discardTile_ignores_turn_and_phase :
    sD.phase = Phase.draw ∧ sD.currentPlayer = 0 ∧
      tC2 ∈ (playerAt sD.players 1).hand ∧ discardTile sD 1 tC2 ≠ sD := by decide

/-- C3 (code bug): the same 17-tile candidate — four formed melds plus the
five unmelded tiles {East, East, 1●, 2●, 3●} — is accepted by
`checkStandardWin` in the order [1●, 2●, 3●, E, E] but rejected in the
order [E, E, 3●, 2●, 1●], although both orders carry the valid partition
(1●-2●-3● sequence) + (East pair): the left-to-right scan never considers a
base tile in the last two positions, so the verdict depends on search
order and the search is incomplete. -/
theorem checkStandardWin_order_dependent :
    (checkStandardWin [tC1, tC2, tC3, tE1, tE2] fourMelds).isValid = true ∧
    (checkStandardWin [tE1, tE2, tC3, tC2, tC1] fourMelds).isValid = false ∧
    ([tC1, tC2, tC3, tE1, tE2] : List Tile).Perm [tE1, tE2, tC3, tC2, tC1] := by decide

/-- C2 (amended): an accepted chow, pung or kong claim leaves the resulting
state with `lastDiscard` cleared; an accepted win claim leaves
`lastDiscard` untouched and instead finishes the game, recording a
winner. -/
theorem processClaim_clears_lastDiscard (s : GameState) (c : ClaimAction)
    (hacc : (processClaim s c).1 = true) :
    (c.type = ClaimType.chow ∨ c.type = ClaimType.pung ∨ c.type = ClaimType.kong →
      (processClaim s c).2.lastDiscard = none) ∧
    (c.type = ClaimType.win →
      (processClaim s c).2.lastDiscard = s.lastDiscard ∧
      (processClaim s c).2.status = GameStatus.finished) := by
  by_cases hv : isValidClaim s c
  · cases hidx : s.players.findIdx? (fun p => p.id == c.playerId) with
    | none => simp [processClaim, hv, hidx] at hacc ⊢
    | some pi =>
      cases hld : s.lastDiscard with
      | none => simp [processClaim, hv, hidx, hld] at hacc ⊢
      | some d =>
        cases hty : c.type with
        | chow =>
          have h' : (processClaimChow s pi d).1 = true := by
            simpa [processClaim, hv, hidx, hld, hty] using hacc
          constructor
          · intro _
            simpa [processClaim, hv, hidx, hld, hty] using
              processClaimChow_success_fields s pi d h'
          · intro hwin; exact absurd hwin (by decide)
        | pung =>
          have h' : (processClaimPung s c.playerId pi d).1 = true := by
            simpa [processClaim, hv, hidx, hld, hty] using hacc
          constructor
          · intro _
            simpa [processClaim, hv, hidx, hld, hty] using
              processClaimPung_success_fields s c.playerId pi d h'
          · intro hwin; exact absurd hwin (by decide)
        | kong =>
          have h' : (processClaimKong s c.playerId pi d).1 = true := by
            simpa [processClaim, hv, hidx, hld, hty] using hacc
          constructor
          · intro _
            simpa [processClaim, hv, hidx, hld, hty] using
              processClaimKong_success_fields s c.playerId pi d h'
          · intro hwin; exact absurd hwin (by decide)
        | win =>
          have h' : (processClaimWin s c.playerId pi d).1 = true := by
            simpa [processClaim, hv, hidx, hld, hty] using hacc
          have hf := processClaimWin_success_fields s c.playerId pi d h'
          constructor
          · intro hcpk
            rcases hcpk with h1 | h1 | h1 <;> exact absurd h1 (by decide)
          · intro _
            exact ⟨by simpa [processClaim, hv, hidx, hld, hty] using hf.1,
              by simpa [processClaim, hv, hidx, hld, hty] using hf.2.1⟩
  · simp [processClaim, hv] at hacc

/-- Witness for C2's amended statement at a concrete accepted pung claim. -/
theorem processClaim_clears_lastDiscard_witness :
    (processClaim sPung ⟨ClaimType.pung, "p0"⟩).2.lastDiscard = none := by
  have h := processClaim_clears_lastDiscard sPung ⟨ClaimType.pung, "p0"⟩ (by decide)
  exact h.1 (Or.inr (Or.inl rfl))

unseal List.merge List.mergeSort

/-- Counterexample to C2 as stated: `processClaim` accepts the win claim on
`sWin` (returns `true`) yet the resulting state still has the consumed
discard as its open `lastDiscard`. -/
theorem processClaim_win_keeps_lastDiscard :
    (processClaim sWin ⟨ClaimType.win, "p0"⟩).1 = true ∧
    (processClaim sWin ⟨ClaimType.win, "p0"⟩).2.lastDiscard = some dWin := by decide

/-- C10: when `drawTile` reports no tile, the acting player's hand, the
phase and the has-drawn flag are unchanged; but when the wall was non-empty
(necessarily all bonus tiles) those tiles have been moved into the drawer's
flower collection and the wall is left empty, so the `none` outcome is not
effect-free. -/
theorem drawTile_none_frame (s : GameState) (i : Nat) (h : (drawTile s i).1 = none) :
    (playerAt (drawTile s i).2.players i).hand = (playerAt s.players i).hand ∧
    (drawTile s i).2.phase = s.phase ∧
    (drawTile s i).2.hasDrawnThisTurn = s.hasDrawnThisTurn ∧
    (s.wall ≠ [] →
      (∀ t ∈ s.wall, t.isBonus = true) ∧ (drawTile s i).2.wall = [] ∧
      (i < s.players.length →
        (playerAt (drawTile s i).2.players i).flowers =
          (playerAt s.players i).flowers ++ s.wall)) := by
  by_cases hw : s.wall.isEmpty
  · have hnil : s.wall = [] := by simpa [List.isEmpty_iff] using hw
    simp [drawTile, hw, hnil]
  · have hbonus : ∀ t ∈ s.wall, t.isBonus = true := by
      rw [← drawLoop_none_iff s.wall (playerAt s.players i).hand (playerAt s.players i).flowers]
      rcases hdl : drawLoop s.wall (playerAt s.players i).hand (playerAt s.players i).flowers
        with ⟨drawn, rest⟩
      cases drawn with
      | none => rfl
      | some t =>
        exfalso
        have hsome : (drawTile s i).1 = some t := by simp [drawTile, hw, hdl]
        rw [h] at hsome
        exact Option.noConfusion hsome
    have hdl := drawLoop_all_bonus s.wall (playerAt s.players i).hand
      (playerAt s.players i).flowers hbonus
    have hstate : (drawTile s i).2 =
        { s with wall := [],
                 players := s.players.set i
                   { playerAt s.players i with hand := (playerAt s.players i).hand,
                                               flowers := (playerAt s.players i).flowers ++ s.wall } } := by
      simp [drawTile, hw, hdl]
    refine ⟨?_, ?_, ?_, fun _ => ⟨hbonus, ?_, fun hi => ?_⟩⟩
    · rw [hstate]
      by_cases hi : i < s.players.length <;> simp [playerAt_set_self, hi]
    · rw [hstate]
    · rw [hstate]
    · rw [hstate]
    · rw [hstate]
      simp [playerAt_set_self, hi]

/-- Witness for C10 on a wall holding a single bonus tile. -/
theorem drawTile_none_frame_witness :
    (playerAt (drawTile sB 0).2.players 0).hand = (playerAt sB.players 0).hand ∧
    (drawTile sB 0).2.wall = [] ∧
    (playerAt (drawTile sB 0).2.players 0).flowers =
      (playerAt sB.players 0).flowers ++ sB.wall := by
  have h := drawTile_none_frame sB 0 (by decide)
  exact ⟨h.1, (h.2.2.2 (by decide)).2.1, (h.2.2.2 (by decide)).2.2 (by decide)⟩

end Mahjong

namespace Mahjong

theorem evaluateSequencePotential_nonneg (tile : Tile) (hand : List Tile) :
    0 ≤ evaluateSequencePotential tile hand := by
  unfold evaluateSequencePotential
  dsimp only
  split_ifs <;> omega

theorem evaluateDangerLevel_le (tile : Tile) (gs : GameState) :
    evaluateDangerLevel tile gs ≤ if midValue tile then 10 else 0 := by
  unfold evaluateDangerLevel
  dsimp only
  split_ifs <;> omega

theorem midValue_not_terminal (tile : Tile) (h : midValue tile = true) :
    (tile.value == some 1 || tile.value == some 9) = false := by
  simp only [midValue, truthyValue, Bool.and_eq_true, decide_eq_true_eq] at h
  obtain ⟨⟨-, h4⟩, h6⟩ := h
  rcases hv : tile.value with - | v
  · simp
  · rw [hv] at h4 h6
    simp only [Option.getD_some] at h4 h6
    simp only [hv, Bool.or_eq_false_iff, beq_eq_false_iff_ne, ne_eq, Option.some.injEq]
    omega

/-- C9: for a tile of the player's hand with at least one other matching
tile still in hand (the sole remaining match of a pair, or two or more
matches of a near-triplet), the conservative score
`evaluateDiscardValueForWin` strictly exceeds the non-conservative
`evaluateDiscardValue` of the same tile in the same state, for every
strategy the winning analysis may report. -/
theorem conservative_score_exceeds (tile : Tile) (player : Player) (gs : GameState)
    (strategy : Strategy)
    (hm : 1 ≤ (player.hand.filter (fun t => tilesMatch t tile && t.id != tile.id)).length) :
    evaluateDiscardValue tile player gs < evaluateDiscardValueForWin tile player gs strategy := by
  have hmt : 1 ≤ ((player.hand.filter (fun t => t.id != tile.id)).filter
      (fun t => tilesMatch t tile)).length := by
    rw [List.filter_filter]
    exact hm
  have hex : 1 ≤ (player.hand.filter (fun t =>
      t.suit == tile.suit && t.value == tile.value && t.wind == tile.wind &&
        t.dragon == tile.dragon && t.id != tile.id)).length := by
    refine le_trans hm ?_
    rw [← List.countP_eq_length_filter, ← List.countP_eq_length_filter]
    apply List.countP_mono_left
    intro a _ ha
    simp only [tilesMatch, Bool.and_eq_true] at ha
    obtain ⟨⟨⟨⟨⟨⟨hsu, hva⟩, hwi⟩, hdr⟩, -⟩, -⟩, hid⟩ := ha
    simp [hsu, hva, hwi, hdr, hid]
  have hseq := evaluateSequencePotential_nonneg tile
    (player.hand.filter (fun t => t.id != tile.id))
  have hA : evaluateDiscardValue tile player gs ≤ 0 := by
    have hdg := evaluateDangerLevel_le tile gs
    unfold evaluateDiscardValue
    dsimp only
    by_cases hmid : midValue tile = true
    · rw [if_pos hmid] at hdg
      rw [midValue_not_terminal tile hmid, hmid]
      simp only [if_true, Bool.false_eq_true, if_false]
      split_ifs <;> (try simp only [beq_iff_eq] at *) <;> omega
    · rw [Bool.not_eq_true] at hmid
      rw [hmid, if_neg (by simp)] at hdg
      rw [hmid]
      simp only [Bool.false_eq_true, if_false]
      split_ifs <;> (try simp only [beq_iff_eq] at *) <;> omega
  have hB : 50 ≤ evaluateDiscardValueForWin tile player gs strategy := by
    unfold evaluateDiscardValueForWin
    dsimp only
    split_ifs <;> (try simp only [beq_iff_eq] at *) <;> omega
  calc evaluateDiscardValue tile player gs ≤ 0 := hA
    _ < 50 := by omega
    _ ≤ evaluateDiscardValueForWin tile player gs strategy := hB

theorem triple_rotate (x y z : Nat) : ({x, y, z} : Multiset Nat) = {z, x, y} := by
  change x ::ₘ y ::ₘ z ::ₘ 0 = z ::ₘ x ::ₘ y ::ₘ 0
  rw [Multiset.cons_swap y z, Multiset.cons_swap x z]

theorem triple_swap23 (x y z : Nat) : ({x, y, z} : Multiset Nat) = {x, z, y} := by
  change x ::ₘ y ::ₘ z ::ₘ 0 = x ::ₘ z ::ₘ y ::ₘ 0
  rw [Multiset.cons_swap y z]

theorem triple_swap12 (x y z : Nat) : ({x, y, z} : Multiset Nat) = {y, x, z} := by
  change x ::ₘ y ::ₘ z ::ₘ 0 = y ::ₘ x ::ₘ z ::ₘ 0
  rw [Multiset.cons_swap x y]

theorem pair_multiset_cases {x y a b : Nat} (h : ({x, y} : Multiset Nat) = {a, b}) :
    (x = a ∧ y = b) ∨ (x = b ∧ y = a) := by
  rcases Multiset.cons_eq_cons.mp h with ⟨rfl, h2⟩ | ⟨hne, cs, h1, h2⟩
  · exact Or.inl ⟨rfl, Multiset.singleton_inj.mp h2⟩
  · have hcs : cs = 0 := by
      have hc := congrArg Multiset.card h1
      simp only [Multiset.card_singleton, Multiset.card_cons] at hc
      exact Multiset.card_eq_zero.mp (by omega)
    subst hcs
    rw [Multiset.cons_zero] at h1 h2
    exact Or.inr ⟨(Multiset.singleton_inj.mp h2).symm, (Multiset.singleton_inj.mp h1)⟩

/-- The suit-tile filter of `canFormSequence` keeps exactly the hand tiles
of the discard's suit with a truthy value. -/
theorem mem_suitTiles {hand : List Tile} {d : Tile} {a : Tile} (ha : a ∈ hand)
    (hsuit : a.suit = d.suit) {x : Nat} (hx : a.value = some x) (hx1 : 1 ≤ x) :
    a ∈ hand.filter (fun t => t.suit == d.suit && truthyValue t.value) := by
  rw [List.mem_filter]
  refine ⟨ha, ?_⟩
  simp [hsuit, truthyValue, hx]
  omega

/-- Core of C7: under a well-formed discard rank, `canFormSequence` holds
exactly when two hand tiles of the discard's suit complete three
consecutive ranks with it.  (The guards `≤ 7`, `2..8`, `≥ 3` of the three
positional patterns are equivalent to the rank bounds of the run.) -/
theorem ite_false_eq_true {c : Prop} [Decidable c] {x : Bool}
    (h : (if c then x else false) = true) : c ∧ x = true := by
  by_cases hc : c
  · rw [if_pos hc] at h; exact ⟨hc, h⟩
  · rw [if_neg hc] at h; cases h

/-- Core of C7: under a well-formed discard rank, `canFormSequence` holds
exactly when two hand tiles of the discard's suit complete three
consecutive ranks with it.  (The guards `≤ 7`, `2..8`, `≥ 3` of the three
positional patterns are equivalent to the rank bounds of the run.) -/
theorem canFormSequence_iff (hand : List Tile) (d : Tile)
    (hWFd : isNumberedSuit d.suit = true → ∃ v, d.value = some v ∧ 1 ≤ v ∧ v ≤ 9) :
    (canFormSequence hand d = true ↔ ChowSpec hand d) := by
  by_cases hnum : isNumberedSuit d.suit = true
  · obtain ⟨v, hv, hv1, hv9⟩ := hWFd hnum
    unfold canFormSequence
    rw [hnum]
    simp only [Bool.not_true, Bool.false_eq_true, if_false, hv]
    constructor
    · intro h
      simp only [Bool.or_eq_true] at h
      refine ⟨hnum, ?_⟩
      rcases h with (h1 | h2) | h3
      · obtain ⟨g, hx⟩ := ite_false_eq_true h1
        rw [Bool.and_eq_true, List.any_eq_true, List.any_eq_true] at hx
        obtain ⟨⟨a, ha, hav⟩, ⟨b, hb, hbv⟩⟩ := hx
        rw [List.mem_filter, Bool.and_eq_true, beq_iff_eq] at ha hb
        exact ⟨a, ha.1, b, hb.1, ha.2.1, hb.2.1, v, v + 1, v + 2, v, hv1, by omega,
          by simpa using hav, by simpa using hbv, hv, by rw [triple_rotate]⟩
      · obtain ⟨g, hx⟩ := ite_false_eq_true h2
        rw [Bool.and_eq_true, decide_eq_true_eq, decide_eq_true_eq] at g
        rw [Bool.and_eq_true, List.any_eq_true, List.any_eq_true] at hx
        obtain ⟨⟨a, ha, hav⟩, ⟨b, hb, hbv⟩⟩ := hx
        rw [List.mem_filter, Bool.and_eq_true, beq_iff_eq] at ha hb
        refine ⟨a, ha.1, b, hb.1, ha.2.1, hb.2.1, v - 1, v - 1, v + 1, v, by omega, by omega,
          by simpa using hav, by simpa using hbv, hv, ?_⟩
        have e1 : v - 1 + 1 = v := by omega
        have e2 : v - 1 + 2 = v + 1 := by omega
        rw [e1, e2, triple_swap23]
      · obtain ⟨g, hx⟩ := ite_false_eq_true h3
        rw [Bool.and_eq_true, List.any_eq_true, List.any_eq_true] at hx
        obtain ⟨⟨a, ha, hav⟩, ⟨b, hb, hbv⟩⟩ := hx
        rw [List.mem_filter, Bool.and_eq_true, beq_iff_eq] at ha hb
        refine ⟨a, ha.1, b, hb.1, ha.2.1, hb.2.1, v - 2, v - 1, v - 2, v, by omega, by omega,
          by simpa using hav, by simpa using hbv, hv, ?_⟩
        have e1 : v - 2 + 1 = v - 1 := by omega
        have e2 : v - 2 + 2 = v := by omega
        rw [e1, e2, triple_swap12]
    · rintro ⟨-, a, ha, b, hb, hsa, hsb, lo, x, y, vv, hlo1, hlo9, hax, hby, hdvv, hms⟩
      have hvv : vv = v := by
        rw [hv] at hdvv
        exact (Option.some_inj.mp hdvv).symm
      subst hvv
      rw [triple_rotate] at hms
      have hvmem : vv ∈ ({lo, lo + 1, lo + 2} : Multiset Nat) := by
        rw [← hms]; simp
      simp only [Multiset.insert_eq_cons, Multiset.mem_cons, Multiset.mem_singleton] at hvmem
      simp only [Bool.or_eq_true]
      rcases hvmem with hveq | hveq | hveq
      · -- discard is the low member
        rw [hveq] at hms
        simp only [Multiset.insert_eq_cons] at hms
        have hpair : ({x, y} : Multiset Nat) = {lo + 1, lo + 2} :=
          (Multiset.cons_inj_right lo).mp hms
        refine Or.inl (Or.inl ?_)
        rw [if_pos (show vv ≤ 7 by omega), Bool.and_eq_true, List.any_eq_true,
          List.any_eq_true]
        rcases pair_multiset_cases hpair with ⟨hx', hy'⟩ | ⟨hx', hy'⟩
        · refine ⟨⟨a, mem_suitTiles ha hsa hax (by omega), ?_⟩,
            ⟨b, mem_suitTiles hb hsb hby (by omega), ?_⟩⟩ <;>
            simp only [hax, hby, beq_iff_eq, Option.some.injEq] <;> omega
        · refine ⟨⟨b, mem_suitTiles hb hsb hby (by omega), ?_⟩,
            ⟨a, mem_suitTiles ha hsa hax (by omega), ?_⟩⟩ <;>
            simp only [hax, hby, beq_iff_eq, Option.some.injEq] <;> omega
      · -- discard is the middle member
        rw [hveq] at hms
        rw [triple_swap12 lo (lo + 1) (lo + 2)] at hms
        simp only [Multiset.insert_eq_cons] at hms
        have hpair : ({x, y} : Multiset Nat) = {lo, lo + 2} :=
          (Multiset.cons_inj_right (lo + 1)).mp hms
        refine Or.inl (Or.inr ?_)
        rw [if_pos (show (decide (2 ≤ vv) && decide (vv ≤ 8)) = true by
          simp only [Bool.and_eq_true, decide_eq_true_eq]; omega),
          Bool.and_eq_true, List.any_eq_true, List.any_eq_true]
        rcases pair_multiset_cases hpair with ⟨hx', hy'⟩ | ⟨hx', hy'⟩
        · refine ⟨⟨a, mem_suitTiles ha hsa hax (by omega), ?_⟩,
            ⟨b, mem_suitTiles hb hsb hby (by omega), ?_⟩⟩ <;>
            simp only [hax, hby, beq_iff_eq, Option.some.injEq] <;> omega
        · refine ⟨⟨b, mem_suitTiles hb hsb hby (by omega), ?_⟩,
            ⟨a, mem_suitTiles ha hsa hax (by omega), ?_⟩⟩ <;>
            simp only [hax, hby, beq_iff_eq, Option.some.injEq] <;> omega
      · -- discard is the high member
        rw [hveq] at hms
        rw [triple_rotate lo (lo + 1) (lo + 2)] at hms
        simp only [Multiset.insert_eq_cons] at hms
        have hpair : ({x, y} : Multiset Nat) = {lo, lo + 1} :=
          (Multiset.cons_inj_right (lo + 2)).mp hms
        refine Or.inr ?_
        rw [if_pos (show 3 ≤ vv by omega), Bool.and_eq_true, List.any_eq_true,
          List.any_eq_true]
        rcases pair_multiset_cases hpair with ⟨hx', hy'⟩ | ⟨hx', hy'⟩
        · refine ⟨⟨b, mem_suitTiles hb hsb hby (by omega), ?_⟩,
            ⟨a, mem_suitTiles ha hsa hax (by omega), ?_⟩⟩ <;>
            simp only [hax, hby, beq_iff_eq, Option.some.injEq] <;> omega
        · refine ⟨⟨a, mem_suitTiles ha hsa hax (by omega), ?_⟩,
            ⟨b, mem_suitTiles hb hsb hby (by omega), ?_⟩⟩ <;>
            simp only [hax, hby, beq_iff_eq, Option.some.injEq] <;> omega
  · constructor
    · intro h
      unfold canFormSequence at h
      rw [Bool.not_eq_true] at hnum
      rw [hnum] at h
      cases h
    · rintro ⟨hnum', -⟩
      exact absurd hnum' hnum

/-- C7: with a claimant found by id and an open numbered discard of a legal
rank, a chow claim is valid exactly when two of the claimant's hand tiles
complete three consecutive ranks of the discard's suit with it; the
equivalence mentions no seat, and the claim's validity is unchanged under
any current-player index — any player may claim chow. -/
theorem chow_claim_iff_run (s : GameState) (pid : String) (player : Player) (d : Tile)
    (hfind : s.players.find? (fun p => p.id == pid) = some player)
    (hld : s.lastDiscard = some d)
    (hWFd : isNumberedSuit d.suit = true → ∃ v, d.value = some v ∧ 1 ≤ v ∧ v ≤ 9) :
    (isValidClaim s ⟨ClaimType.chow, pid⟩ = true ↔ ChowSpec player.hand d) ∧
    (∀ j : Nat, isValidClaim { s with currentPlayer := j } ⟨ClaimType.chow, pid⟩ =
      isValidClaim s ⟨ClaimType.chow, pid⟩) := by
  constructor
  · have hred : isValidClaim s ⟨ClaimType.chow, pid⟩ = canFormSequence player.hand d := by
      simp only [isValidClaim, hfind, hld]
    rw [hred]
    exact canFormSequence_iff player.hand d hWFd
  · intro j
    rfl

/-- Witness for C7 at a concrete chow (2●,3● in hand, 1● discarded). -/
theorem chow_claim_iff_run_witness :
    (isValidClaim sChow ⟨ClaimType.chow, "p0"⟩ = true ↔
      ChowSpec (playerAt sChow.players 0).hand dChow) ∧
    (∀ j : Nat, isValidClaim { sChow with currentPlayer := j } ⟨ClaimType.chow, "p0"⟩ =
      isValidClaim sChow ⟨ClaimType.chow, "p0"⟩) :=
  chow_claim_iff_run sChow "p0" (playerAt sChow.players 0) dChow (by decide) rfl
    (fun _ => ⟨1, rfl, by omega, by omega⟩)

/-- Witness for C9: a pair of 5-circles, discarding one of them. -/
theorem conservative_score_exceeds_witness :
    evaluateDiscardValue (numTile Suit.circles 5 800) pPair sD <
      evaluateDiscardValueForWin (numTile Suit.circles 5 800) pPair sD Strategy.pairs :=
  conservative_score_exceeds (numTile Suit.circles 5 800) pPair sD Strategy.pairs (by decide)

end Mahjong

namespace Mahjong

theorem mem_keyTarget (ks : Fin 8 → TileKey) (x : TileKey) :
    x ∈ keyTarget ks ↔ ∃ i, ks i = x := by
  constructor
  · intro hx
    simp only [keyTarget, List.mem_cons, List.not_mem_nil, or_false] at hx
    rcases hx with h | h | h | h | h | h | h | h | h | h | h | h | h | h | h | h | h <;>
      exact ⟨_, h.symm⟩
  · rintro ⟨i, rfl⟩
    fin_cases i <;> simp [keyTarget]

theorem keyList_nodup (ks : Fin 8 → TileKey) (hinj : Function.Injective ks) :
    ([ks 0, ks 1, ks 2, ks 3, ks 4, ks 5, ks 6, ks 7] : List TileKey).Nodup := by
  simp only [List.nodup_cons, List.mem_cons, List.not_mem_nil, or_false, hinj.eq_iff,
    Fin.ext_iff, List.nodup_nil, and_true, not_or]
  decide

theorem mem_keyList (ks : Fin 8 → TileKey) (x : TileKey) :
    x ∈ ([ks 0, ks 1, ks 2, ks 3, ks 4, ks 5, ks 6, ks 7] : List TileKey) ↔ ∃ i, ks i = x := by
  constructor
  · intro hx
    simp only [List.mem_cons, List.not_mem_nil, or_false] at hx
    rcases hx with h | h | h | h | h | h | h | h <;> exact ⟨_, h.symm⟩
  · rintro ⟨i, rfl⟩
    fin_cases i <;> simp

theorem count_keyTarget (ks : Fin 8 → TileKey) (hinj : Function.Injective ks) (i : Fin 8) :
    (keyTarget ks).count (ks i) = if i = 0 then 3 else 2 := by
  fin_cases i <;>
    simp [keyTarget, List.count_cons, beq_iff_eq, hinj.eq_iff, Fin.ext_iff] <;> decide

theorem keyCounts_perm (hand : List Tile) (ks : Fin 8 → TileKey)
    (hinj : Function.Injective ks)
    (hperm : (hand.map tileKey).Perm (keyTarget ks)) :
    (keyCounts hand).Perm [3, 2, 2, 2, 2, 2, 2, 2] := by
  have hd : ((hand.map tileKey).dedup).Perm
      [ks 0, ks 1, ks 2, ks 3, ks 4, ks 5, ks 6, ks 7] := by
    rw [List.perm_ext_iff_of_nodup (List.nodup_dedup _) (keyList_nodup ks hinj)]
    intro a
    rw [List.mem_dedup, hperm.mem_iff, mem_keyTarget, mem_keyList]
  have hcnt : ∀ i : Fin 8, (hand.map tileKey).count (ks i) = if i = 0 then 3 else 2 := by
    intro i
    rw [hperm.count_eq]
    exact count_keyTarget ks hinj i
  unfold keyCounts
  refine (hd.map (fun k => (hand.map tileKey).count k)).trans ?_
  have h0 := hcnt 0
  have h1 := hcnt 1
  have h2 := hcnt 2
  have h3 := hcnt 3
  have h4 := hcnt 4
  have h5 := hcnt 5
  have h6 := hcnt 6
  have h7 := hcnt 7
  simp only [Fin.isValue, if_true, if_pos rfl] at h0
  rw [if_neg (by decide)] at h1 h2 h3 h4 h5 h6 h7
  simp only [List.map_cons, List.map_nil, h0, h1, h2, h3, h4, h5, h6, h7]
  exact List.Perm.refl _

theorem sorted_desc_target : ([3, 2, 2, 2, 2, 2, 2, 2] : List Nat).Pairwise (fun a b => b ≤ a) := by
  decide

theorem isSietePares_of_perm (hand : List Tile) (ks : Fin 8 → TileKey)
    (hinj : Function.Injective ks)
    (hperm : (hand.map tileKey).Perm (keyTarget ks)) :
    isSietePares hand = true := by
  have hlen : hand.length = 17 := by
    have := hperm.length_eq
    simpa [keyTarget] using this
  have hsorted : (keyCounts hand).mergeSort (fun a b => decide (b ≤ a)) =
      [3, 2, 2, 2, 2, 2, 2, 2] := by
    haveI : IsAntisymm Nat (fun a b => b ≤ a) := ⟨fun a b h1 h2 => Nat.le_antisymm h2 h1⟩
    refine List.eq_of_perm_of_sorted
      ((List.mergeSort_perm _ _).trans (keyCounts_perm hand ks hinj hperm))
      ?_ sorted_desc_target
    have hpw := List.sorted_mergeSort
      (fun a b c (h1 : decide (b ≤ a) = true) (h2 : decide (c ≤ b) = true) => by
        simp only [decide_eq_true_eq] at h1 h2 ⊢; omega)
      (fun a b => by
        simp only [Bool.or_eq_true, decide_eq_true_eq]; omega)
      (keyCounts hand)
    exact List.Pairwise.imp (fun h => by simpa using h) hpw
  unfold isSietePares
  rw [if_neg (by omega)]
  rw [hsorted]
  simp

/-- C5: a 17-tile hand (no formed melds) of seven pairs of distinct tile
identities plus a triplet of an eighth identity is accepted as Siete Pares
with ambitions exactly {Todas, Siete Pares} and payout exactly 1.5; the
standard-win bonus checks (Escalera, No Flowers End, All Up) are skipped,
whatever the flower collection. -/
theorem sietePares_accepted (hand : List Tile) (flowers : List Tile) (ks : Fin 8 → TileKey)
    (hinj : Function.Injective ks)
    (hperm : (hand.map tileKey).Perm (keyTarget ks)) :
    isWinningHand hand [] flowers =
      ⟨true, "Siete Pares", [AmbitionType.todas, AmbitionType.siete_pares], 3/2,
        [("Basic Win", 1), ("Siete Pares", 1/2)]⟩ := by
  have hlen : hand.length = 17 := by
    have := hperm.length_eq
    simpa [keyTarget] using this
  have hsp := isSietePares_of_perm hand ks hinj hperm
  simp [isWinningHand, hlen, hsp]

/-- Witness for C5 on the concrete hand `spHand`. -/
theorem sietePares_accepted_witness :
    isWinningHand spHand [] [] =
      ⟨true, "Siete Pares", [AmbitionType.todas, AmbitionType.siete_pares], 3/2,
        [("Basic Win", 1), ("Siete Pares", 1/2)]⟩ :=
  sietePares_accepted spHand []
    (fun i => ⟨Suit.circles, some ((i : Nat) + 1), none, none⟩)
    (by decide) (by decide)

end Mahjong

namespace Mahjong

theorem drawTile_state_eq (s : GameState) (i : Nat) (hw : s.wall ≠ []) :
    (drawTile s i).2.wall =
      (drawLoop s.wall (playerAt s.players i).hand (playerAt s.players i).flowers).2.1 ∧
    (drawTile s i).2.players = s.players.set i
      { playerAt s.players i with
        hand :=
          (drawLoop s.wall (playerAt s.players i).hand (playerAt s.players i).flowers).2.2.1,
        flowers :=
          (drawLoop s.wall (playerAt s.players i).hand (playerAt s.players i).flowers).2.2.2 } := by
  have hwf : s.wall.isEmpty = false := by simpa [List.isEmpty_iff] using hw
  rcases hdl : drawLoop s.wall (playerAt s.players i).hand (playerAt s.players i).flowers
    with ⟨drawn, wall', hand', flowers'⟩
  cases drawn <;> simp [drawTile, hwf, hdl]

/-- C8: an accepted kong claim makes the claimant the current player with
phase `discard`, the has-drawn flag set and the last discard cleared, and
performs exactly one replacement draw through the shared bonus-skipping
loop (`drawLoop`, the logic of `drawTile`): from the post-removal hand
`kongHand`, the wall, hand and flower collection are exactly one
`drawLoop` step further (and untouched when the wall was empty). -/
theorem kong_claim_replacement_draw (s : GameState) (c : ClaimAction) (pi : Nat) (d : Tile)
    (hk : c.type = ClaimType.kong)
    (hacc : (processClaim s c).1 = true)
    (hidx : s.players.findIdx? (fun p => p.id == c.playerId) = some pi)
    (hld : s.lastDiscard = some d) :
    (processClaim s c).2.currentPlayer = pi ∧
    (processClaim s c).2.phase = Phase.discard ∧
    (processClaim s c).2.hasDrawnThisTurn = true ∧
    (processClaim s c).2.lastDiscard = none ∧
    (s.wall = [] → (processClaim s c).2.wall = [] ∧
      (playerAt (processClaim s c).2.players pi).hand = kongHand s pi d ∧
      (playerAt (processClaim s c).2.players pi).flowers = (playerAt s.players pi).flowers) ∧
    (s.wall ≠ [] →
      (processClaim s c).2.wall =
        (drawLoop s.wall (kongHand s pi d) (playerAt s.players pi).flowers).2.1 ∧
      (playerAt (processClaim s c).2.players pi).hand =
        (drawLoop s.wall (kongHand s pi d) (playerAt s.players pi).flowers).2.2.1 ∧
      (playerAt (processClaim s c).2.players pi).flowers =
        (drawLoop s.wall (kongHand s pi d) (playerAt s.players pi).flowers).2.2.2) := by
  by_cases hv : isValidClaim s c
  · obtain ⟨ct, cpid⟩ := c
    simp only at hk
    subst hk
    have h' : (processClaimKong s cpid pi d).1 = true := by
      simpa [processClaim, hv, hidx, hld] using hacc
    have hpi : pi < s.players.length :=
      (List.findIdx?_eq_some_iff_findIdx_eq.mp hidx).1
    have hred : (processClaim s ⟨ClaimType.kong, cpid⟩).2 = (processClaimKong s cpid pi d).2 := by
      simp [processClaim, hv, hidx, hld]
    rw [hred]
    by_cases htake :
        ((((playerAt s.players pi).hand.filter (fun t => tilesMatch t d)).take 3).length == 3) =
          true
    · have hA_wall : (applyKongMeld s pi d).wall = s.wall := rfl
      have hA_hand : (playerAt (applyKongMeld s pi d).players pi).hand = kongHand s pi d := by
        unfold applyKongMeld
        dsimp only
        rw [playerAt_set_self, if_pos hpi]
        rfl
      have hA_flowers : (playerAt (applyKongMeld s pi d).players pi).flowers =
          (playerAt s.players pi).flowers := by
        unfold applyKongMeld
        dsimp only
        rw [playerAt_set_self, if_pos hpi]
      have hA_len : (applyKongMeld s pi d).players.length = s.players.length := by
        unfold applyKongMeld
        dsimp only
        rw [List.length_set]
      unfold processClaimKong
      dsimp only
      rw [htake, if_pos rfl]
      refine ⟨rfl, rfl, rfl, rfl, ?_, ?_⟩
      · intro hwall
        have hdt : drawTile (applyKongMeld s pi d) pi = (none, applyKongMeld s pi d) := by
          unfold drawTile
          rw [if_pos (by simp [hA_wall, hwall])]
        rw [hdt]
        simp only [recordAmbition]
        exact ⟨hA_wall.trans hwall, hA_hand, hA_flowers⟩
      · intro hwall
        obtain ⟨hw1, hw2⟩ := drawTile_state_eq (applyKongMeld s pi d) pi
          (by rw [hA_wall]; exact hwall)
        rw [hA_wall, hA_hand, hA_flowers] at hw1 hw2
        simp only [recordAmbition]
        refine ⟨hw1, ?_, ?_⟩ <;>
          rw [hw2, playerAt_set_self, if_pos (hA_len ▸ hpi)]
    · exfalso
      unfold processClaimKong at h'
      dsimp only at h'
      rw [Bool.not_eq_true] at htake
      rw [htake] at h'
      simp at h'
  · exfalso
    rw [show processClaim s c = (false, s) by simp [processClaim, hv]] at hacc
    exact absurd hacc (by simp)

/-- Witness for C8 on the concrete kong state `sK` (wall: one bonus tile
then one regular tile). -/
theorem kong_claim_replacement_draw_witness :
    (processClaim sK ⟨ClaimType.kong, "p0"⟩).2.currentPlayer = 0 ∧
    (processClaim sK ⟨ClaimType.kong, "p0"⟩).2.phase = Phase.discard ∧
    (processClaim sK ⟨ClaimType.kong, "p0"⟩).2.wall =
      (drawLoop sK.wall (kongHand sK 0 dK) (playerAt sK.players 0).flowers).2.1 := by
  have h := kong_claim_replacement_draw sK ⟨ClaimType.kong, "p0"⟩ 0 dK rfl (by decide)
    (by decide) rfl
  exact ⟨h.1, h.2.1, (h.2.2.2.2.2 (by decide)).1⟩

end Mahjong

namespace Mahjong

/-! ### Tile-conservation toolkit (id multisets) -/

theorem tileBag_nil : tileBag [] = 0 := rfl

theorem tileBag_cons (t : Tile) (l : List Tile) : tileBag (t :: l) = t.id ::ₘ tileBag l := rfl

theorem tileBag_singleton (t : Tile) : tileBag [t] = {t.id} := rfl

theorem tileBag_append (l₁ l₂ : List Tile) :
    tileBag (l₁ ++ l₂) = tileBag l₁ + tileBag l₂ := by
  show (((l₁ ++ l₂).map (fun t => t.id) : List Nat) : Multiset Nat) = _
  rw [List.map_append, ← Multiset.coe_add]
  rfl

theorem tileBag_perm {l₁ l₂ : List Tile} (h : l₁.Perm l₂) : tileBag l₁ = tileBag l₂ :=
  Multiset.coe_eq_coe.mpr (h.map _)

theorem tileBag_card (l : List Tile) : Multiset.card (tileBag l) = l.length := by
  show Multiset.card ((l.map (fun t => t.id) : List Nat) : Multiset Nat) = _
  rw [Multiset.coe_card, List.length_map]

/-- Erasing by a present id takes exactly that one id out of the bag. -/
theorem tileBag_eraseP (l : List Tile) (k : Nat) (h : k ∈ l.map (fun t => t.id)) :
    tileBag (l.eraseP (fun t => t.id == k)) + {k} = tileBag l := by
  induction l with
  | nil => simp at h
  | cons t l ih =>
    by_cases ht : t.id = k
    · rw [List.eraseP_cons_of_pos (by simp [ht]), tileBag_cons, ht, ← Multiset.singleton_add]
      abel
    · rw [List.eraseP_cons_of_neg (by simp [ht]), tileBag_cons, tileBag_cons]
      have hk : k ∈ l.map (fun t => t.id) := by
        rcases List.mem_map.mp h with ⟨u, hu, huk⟩
        cases hu with
        | head => exact absurd huk ht
        | tail _ hu => exact List.mem_map.mpr ⟨u, hu, huk⟩
      rw [← ih hk, ← Multiset.singleton_add, ← Multiset.singleton_add]
      abel

/-- Sequentially erasing, by id, a duplicate-free selection of hand tiles
takes exactly the selection's ids out of the hand's bag. -/
theorem foldl_eraseP_tileBag (rem : List Tile) :
    ∀ hand : List Tile, (rem.map (fun t => t.id)).Nodup →
      (∀ x ∈ rem, x ∈ hand) →
      tileBag (rem.foldl (fun h tile => h.eraseP (fun t => t.id == tile.id)) hand) +
        tileBag rem = tileBag hand := by
  induction rem with
  | nil => intro hand _ _; rw [List.foldl_nil, tileBag_nil, add_zero]
  | cons x rest ih =>
    intro hand hnd hmem
    rw [List.map_cons, List.nodup_cons] at hnd
    have hxk : x.id ∈ hand.map (fun t => t.id) :=
      List.mem_map.mpr ⟨x, hmem x (by simp), rfl⟩
    have hmem' : ∀ y ∈ rest, y ∈ hand.eraseP (fun t => t.id == x.id) := by
      intro y hy
      have hyx : ¬((fun t : Tile => t.id == x.id) y = true) := by
        simp only [beq_iff_eq]
        intro he
        exact hnd.1 (List.mem_map.mpr ⟨y, hy, he⟩)
      exact ((List.mem_eraseP_of_neg hyx :
          y ∈ hand.eraseP (fun t => t.id == x.id) ↔ y ∈ hand)).mpr
        (hmem y (List.mem_cons_of_mem _ hy))
    have hih := ih (hand.eraseP (fun t => t.id == x.id)) hnd.2 hmem'
    rw [List.foldl_cons, tileBag_cons, ← tileBag_eraseP hand x.id hxk, ← hih,
      ← Multiset.singleton_add]
    abel

/-- Overwriting one entry of the player list splits the flat tile bag into
an untouched context plus the overwritten player's own bag. -/
theorem flatMap_set_expand (ps : List Player) (i : Nat) (p' : Player) (hi : i < ps.length) :
    ∃ L R : Multiset Nat,
      tileBag (ps.flatMap playerTiles) = L + tileBag (playerTiles (playerAt ps i)) + R ∧
      tileBag ((ps.set i p').flatMap playerTiles) = L + tileBag (playerTiles p') + R := by
  induction ps generalizing i with
  | nil => simp at hi
  | cons q qs ih =>
    cases i with
    | zero =>
      refine ⟨0, tileBag (qs.flatMap playerTiles), ?_, ?_⟩
      · rw [List.flatMap_cons, tileBag_append]
        have hq : playerAt (q :: qs) 0 = q := rfl
        rw [hq, zero_add]
      · rw [List.set_cons_zero, List.flatMap_cons, tileBag_append, zero_add]
    | succ n =>
      obtain ⟨L, R, h1, h2⟩ := ih n (Nat.lt_of_succ_lt_succ hi)
      have hpa : playerAt (q :: qs) (n + 1) = playerAt qs n := rfl
      refine ⟨tileBag (playerTiles q) + L, R, ?_, ?_⟩
      · rw [List.flatMap_cons, tileBag_append, hpa, h1]
        abel
      · rw [List.set_cons_succ, List.flatMap_cons, tileBag_append, h2]
        abel

/-- The drawing loop conserves the wall-hand-flowers pool. -/
theorem drawLoop_tileBag (wall : List Tile) :
    ∀ hand flowers : List Tile,
      tileBag (drawLoop wall hand flowers).2.1 +
        tileBag (drawLoop wall hand flowers).2.2.1 +
        tileBag (drawLoop wall hand flowers).2.2.2 =
      tileBag wall + tileBag hand + tileBag flowers := by
  induction wall with
  | nil => intro hand flowers; rw [drawLoop, tileBag_nil]
  | cons t w ih =>
    intro hand flowers
    by_cases hb : t.isBonus
    · rw [show drawLoop (t :: w) hand flowers = drawLoop w hand (flowers ++ [t]) by
        rw [drawLoop, if_pos hb]]
      rw [ih hand (flowers ++ [t]), tileBag_cons, tileBag_append, tileBag_singleton,
        ← Multiset.singleton_add]
      abel
    · rw [show drawLoop (t :: w) hand flowers = (some t, w, hand ++ [t], flowers) by
        rw [drawLoop, if_neg hb]]
      dsimp only
      rw [tileBag_cons, tileBag_append, tileBag_singleton, ← Multiset.singleton_add]
      abel

theorem idBag_eq (s : GameState) :
    idBag s = tileBag s.wall + tileBag s.flowerWall +
      tileBag (s.players.flatMap playerTiles) + tileBag s.discardPile := by
  unfold idBag collection
  rw [tileBag_append, tileBag_append, tileBag_append]

theorem playerTiles_bag (p : Player) :
    tileBag (playerTiles p) = tileBag p.hand +
      tileBag (p.melds.flatMap (fun m => m.tiles)) + tileBag p.flowers := by
  unfold playerTiles
  rw [tileBag_append, tileBag_append]

theorem NodupIds_iff_idBag (s : GameState) : NodupIds s ↔ (idBag s).Nodup :=
  Iff.symm Multiset.coe_nodup

/-- `drawTile` leaves the discard machinery, the flower wall and the player
count alone. -/
theorem drawTile_frame (s : GameState) (i : Nat) :
    (drawTile s i).2.lastDiscard = s.lastDiscard ∧
    (drawTile s i).2.discardPile = s.discardPile ∧
    (drawTile s i).2.flowerWall = s.flowerWall ∧
    (drawTile s i).2.players.length = s.players.length := by
  by_cases hw : s.wall.isEmpty
  · rw [show (drawTile s i).2 = s by rw [drawTile, if_pos hw]]
    exact ⟨rfl, rfl, rfl, rfl⟩
  · rcases hdl : drawLoop s.wall (playerAt s.players i).hand (playerAt s.players i).flowers
      with ⟨drawn, wall2, hand2, flowers2⟩
    cases drawn <;> simp [drawTile, hw, hdl]

/-- `drawTile` conserves the id bag. -/
theorem drawTile_idBag (s : GameState) (i : Nat) (hi : i < s.players.length) :
    idBag (drawTile s i).2 = idBag s := by
  by_cases hw : s.wall.isEmpty
  · rw [show (drawTile s i).2 = s by rw [drawTile, if_pos hw]]
  · have hwne : s.wall ≠ [] := by simpa [List.isEmpty_iff] using hw
    obtain ⟨hw1, hw2⟩ := drawTile_state_eq s i hwne
    rcases hdl : drawLoop s.wall (playerAt s.players i).hand (playerAt s.players i).flowers
      with ⟨drawn, wall2, hand2, flowers2⟩
    rw [hdl] at hw1 hw2
    dsimp only at hw1 hw2
    have hD := drawLoop_tileBag s.wall (playerAt s.players i).hand (playerAt s.players i).flowers
    rw [hdl] at hD
    dsimp only at hD
    obtain ⟨hld, hpile, hfw, _⟩ := drawTile_frame s i
    obtain ⟨L, R, hE1, hE2⟩ := flatMap_set_expand s.players i
      { playerAt s.players i with hand := hand2, flowers := flowers2 } hi
    rw [idBag_eq, idBag_eq, hw1, hw2, hpile, hfw, hE2, hE1,
      playerTiles_bag, playerTiles_bag]
    dsimp only
    calc tileBag wall2 + tileBag s.flowerWall +
          (L + (tileBag hand2 +
            tileBag ((playerAt s.players i).melds.flatMap (fun m => m.tiles)) +
            tileBag flowers2) + R) + tileBag s.discardPile
        = (tileBag wall2 + tileBag hand2 + tileBag flowers2) +
            (tileBag s.flowerWall + L +
              tileBag ((playerAt s.players i).melds.flatMap (fun m => m.tiles)) + R +
              tileBag s.discardPile) := by abel
      _ = (tileBag s.wall + tileBag (playerAt s.players i).hand +
            tileBag (playerAt s.players i).flowers) +
            (tileBag s.flowerWall + L +
              tileBag ((playerAt s.players i).melds.flatMap (fun m => m.tiles)) + R +
              tileBag s.discardPile) := by rw [hD]
      _ = tileBag s.wall + tileBag s.flowerWall +
            (L + (tileBag (playerAt s.players i).hand +
              tileBag ((playerAt s.players i).melds.flatMap (fun m => m.tiles)) +
              tileBag (playerAt s.players i).flowers) + R) + tileBag s.discardPile := by abel

/-- `discardTile` conserves the id bag and (re-)establishes the last-discard
link. -/
theorem discardTile_inv (s : GameState) (i : Nat) (t : Tile)
    (hlink : LastDiscardLinked s) :
    idBag (discardTile s i t) = idBag s ∧ LastDiscardLinked (discardTile s i t) := by
  by_cases hany : (playerAt s.players i).hand.any (fun u => u.id == t.id) = true
  · have hi : i < s.players.length := by
      by_contra hge
      have hdef : playerAt s.players i = default :=
        List.getD_eq_default _ _ (Nat.le_of_not_lt hge)
      rw [hdef, show (default : Player).hand = [] from rfl] at hany
      exact absurd hany (by simp)
    have hmem : t.id ∈ (playerAt s.players i).hand.map (fun u => u.id) := by
      rcases List.any_eq_true.mp hany with ⟨u, hu, huid⟩
      exact List.mem_map.mpr ⟨u, hu, by simpa using huid⟩
    have hstep : discardTile s i t =
        { s with players := s.players.set i
                   { playerAt s.players i with
                       hand := (playerAt s.players i).hand.eraseP (fun u => u.id == t.id),
                       discards := (playerAt s.players i).discards ++ [t] },
                 discardPile := s.discardPile ++ [t],
                 lastDiscard := some t,
                 lastDrawnTile := none,
                 currentPlayer := (s.currentPlayer + 1) % 4,
                 phase := Phase.draw,
                 hasDrawnThisTurn := false } := by
      unfold discardTile
      dsimp only
      rw [if_pos hany]
    constructor
    · obtain ⟨L, R, hE1, hE2⟩ := flatMap_set_expand s.players i
        { playerAt s.players i with
            hand := (playerAt s.players i).hand.eraseP (fun u => u.id == t.id),
            discards := (playerAt s.players i).discards ++ [t] } hi
      have herase := tileBag_eraseP (playerAt s.players i).hand t.id hmem
      rw [hstep, idBag_eq, idBag_eq]
      dsimp only
      rw [hE2, hE1, playerTiles_bag, playerTiles_bag]
      dsimp only
      rw [tileBag_append, tileBag_singleton, ← herase]
      abel
    · rw [hstep]
      intro u hu
      dsimp only at hu ⊢
      cases hu
      rw [List.map_append]
      exact List.mem_append.mpr (Or.inr (by simp))
  · rw [show discardTile s i t = s by
      unfold discardTile; dsimp only; rw [if_neg hany]]
    exact ⟨rfl, hlink⟩

end Mahjong

namespace Mahjong

/-- Under distinct ids, a player's hand ids are duplicate-free and disjoint
from the shared discard pile's. -/
theorem hand_ids_clean (s : GameState) (pi : Nat) (hpi : pi < s.players.length)
    (hnod : NodupIds s) :
    ((playerAt s.players pi).hand.map (fun t => t.id)).Nodup ∧
      ∀ x ∈ (playerAt s.players pi).hand, ∀ y ∈ s.discardPile, x.id ≠ y.id := by
  have hmem : playerAt s.players pi ∈ s.players := by
    rw [playerAt, List.getD_eq_getElem _ _ hpi]
    exact List.getElem_mem _
  have hsub : List.Sublist (playerAt s.players pi).hand
      (s.wall ++ s.flowerWall ++ s.players.flatMap playerTiles) := by
    have h1 : List.Sublist (playerAt s.players pi).hand
        (playerTiles (playerAt s.players pi)) := by
      unfold playerTiles
      exact (List.sublist_append_left _ _).trans (List.sublist_append_left _ _)
    have h2 : List.Sublist (playerTiles (playerAt s.players pi))
        (s.players.flatMap playerTiles) := by
      rw [List.flatMap_def]
      exact List.sublist_flatten_of_mem (List.mem_map_of_mem _ hmem)
    exact (h1.trans h2).trans (List.sublist_append_right (s.wall ++ s.flowerWall) _)
  have hnodA : (((s.wall ++ s.flowerWall ++ s.players.flatMap playerTiles).map
        (fun t => t.id)) ++ s.discardPile.map (fun t => t.id)).Nodup := by
    have hc : collection s =
        (s.wall ++ s.flowerWall ++ s.players.flatMap playerTiles) ++ s.discardPile := by
      simp [collection]
    rw [NodupIds, hc, List.map_append] at hnod
    exact hnod
  have hdisj := List.disjoint_of_nodup_append hnodA
  constructor
  · exact ((List.nodup_append.mp hnodA).1).sublist (hsub.map _)
  · intro x hx y hy he
    exact hdisj (List.mem_map_of_mem _ (hsub.subset hx))
      (by rw [he]; exact List.mem_map_of_mem _ hy)

/-- A formed chow holds, up to order, the discard and two hand tiles of
distinct values. -/
theorem formChow_shape (hand : List Tile) (d : Tile) (c : List Tile)
    (h : formChow hand d = some c) :
    ∃ t1 t2, t1 ∈ hand ∧ t2 ∈ hand ∧ t1.value ≠ t2.value ∧ c.Perm [d, t1, t2] := by
  unfold formChow at h
  split at h
  · exact absurd h (by simp)
  · split at h
    · exact absurd h (by simp)
    next v hv =>
      dsimp only at h
      split at h
      next c1 hp1 =>
        rw [Option.some_inj] at h
        subst h
        split at hp1
        next hle =>
          split at hp1
          next t1 t2 heq1 heq2 =>
            rw [Option.some_inj] at hp1
            subst hp1
            have hv1 : t1.value = some (v + 1) := by
              have := List.find?_some heq1
              simpa using this
            have hv2 : t2.value = some (v + 2) := by
              have := List.find?_some heq2
              simpa using this
            refine ⟨t1, t2,
              (List.mem_filter.mp (List.mem_of_find?_eq_some heq1)).1,
              (List.mem_filter.mp (List.mem_of_find?_eq_some heq2)).1,
              by rw [hv1, hv2]; simp, ?_⟩
            exact List.mergeSort_perm _ _
          next hne => exact absurd hp1 (by intro hc; simp at hc)
        next hle => exact absurd hp1 (by simp)
      next hp1 =>
        split at h
        next c1 hp2 =>
          rw [Option.some_inj] at h
          subst h
          split at hp2
          next hguard =>
            have hv2le : 2 ≤ v ∧ v ≤ 8 := by simpa using hguard
            split at hp2
            next t1 t2 heq1 heq2 =>
              rw [Option.some_inj] at hp2
              subst hp2
              have hv1 : t1.value = some (v - 1) := by
                have := List.find?_some heq1
                simpa using this
              have hv2 : t2.value = some (v + 1) := by
                have := List.find?_some heq2
                simpa using this
              refine ⟨t1, t2,
                (List.mem_filter.mp (List.mem_of_find?_eq_some heq1)).1,
                (List.mem_filter.mp (List.mem_of_find?_eq_some heq2)).1,
                ?_, ?_⟩
              · rw [hv1, hv2]
                intro he
                rw [Option.some_inj] at he
                omega
              · exact (List.mergeSort_perm _ _).trans (List.Perm.swap d t1 [t2])
            next hne => exact absurd hp2 (by intro hc; simp at hc)
          next hguard => exact absurd hp2 (by simp)
        next hp2 =>
          split at h
          next hguard =>
            split at h
            next t1 t2 heq1 heq2 =>
              rw [Option.some_inj] at h
              subst h
              have hv3 : 3 ≤ v := by simpa using hguard
              have hv1 : t1.value = some (v - 2) := by
                have := List.find?_some heq1
                simpa using this
              have hv2 : t2.value = some (v - 1) := by
                have := List.find?_some heq2
                simpa using this
              refine ⟨t1, t2,
                (List.mem_filter.mp (List.mem_of_find?_eq_some heq1)).1,
                (List.mem_filter.mp (List.mem_of_find?_eq_some heq2)).1,
                ?_, ?_⟩
              · rw [hv1, hv2]
                intro he
                rw [Option.some_inj] at he
                omega
              · refine (List.mergeSort_perm _ _).trans ?_
                exact ((List.Perm.cons t1 (List.Perm.swap d t2 []))).trans
                  (List.Perm.swap d t1 [t2])
            next hne => exact absurd h (by intro hc; simp at hc)
          next hguard => exact absurd h (by simp)

end Mahjong

namespace Mahjong

theorem idBag_of_fields (s' : GameState) (w fw : List Tile) (ps : List Player)
    (pile : List Tile) (hw : s'.wall = w) (hf : s'.flowerWall = fw)
    (hp : s'.players = ps) (hd : s'.discardPile = pile) :
    idBag s' = tileBag w + tileBag fw + tileBag (ps.flatMap playerTiles) + tileBag pile := by
  rw [idBag_eq, hw, hf, hp, hd]

/-- An accepted chow claim conserves the id bag and clears the open
discard. -/
theorem processClaimChow_inv (s : GameState) (pi : Nat) (d : Tile)
    (hpi : pi < s.players.length) (hnod : NodupIds s)
    (hd : d.id ∈ s.discardPile.map (fun t => t.id)) (hlink : LastDiscardLinked s) :
    idBag (processClaimChow s pi d).2 = idBag s ∧
      LastDiscardLinked (processClaimChow s pi d).2 := by
  cases hfc : formChow (playerAt s.players pi).hand d with
  | none =>
    rw [show (processClaimChow s pi d).2 = s by simp only [processClaimChow, hfc]]
    exact ⟨rfl, hlink⟩
  | some ct =>
    obtain ⟨t1, t2, ht1, ht2, hvne, hperm⟩ := formChow_shape _ _ _ hfc
    obtain ⟨hndh, hdisj⟩ := hand_ids_clean s pi hpi hnod
    obtain ⟨yd, hyd, hydid⟩ := List.mem_map.mp hd
    have ht1d : t1.id ≠ d.id := fun he => hdisj t1 ht1 yd hyd (he.trans hydid.symm)
    have ht2d : t2.id ≠ d.id := fun he => hdisj t2 ht2 yd hyd (he.trans hydid.symm)
    have ht12 : t1.id ≠ t2.id := fun he =>
      hvne (congrArg Tile.value (List.inj_on_of_nodup_map hndh ht1 ht2 he))
    have hfilter : List.filter (fun t => t.id != d.id) [d, t1, t2] = [t1, t2] := by
      simp [List.filter_cons, ht1d, ht2d]
    have hremperm : (ct.filter (fun t => t.id != d.id)).Perm [t1, t2] := by
      have h2 := hperm.filter (fun t => t.id != d.id)
      rwa [hfilter] at h2
    have hrem_nodup : ((ct.filter (fun t => t.id != d.id)).map (fun t => t.id)).Nodup := by
      refine ((hremperm.map (fun t => t.id)).nodup_iff).mpr ?_
      simp [ht12]
    have hrem_mem :
        ∀ x ∈ ct.filter (fun t => t.id != d.id), x ∈ (playerAt s.players pi).hand := by
      intro x hx
      have hx2 : x = t1 ∨ x = t2 := by simpa using hremperm.mem_iff.mp hx
      rcases hx2 with rfl | rfl
      · exact ht1
      · exact ht2
    have hfold := foldl_eraseP_tileBag (ct.filter (fun t => t.id != d.id))
      (playerAt s.players pi).hand hrem_nodup hrem_mem
    have hremc : tileBag (ct.filter (fun t => t.id != d.id)) = tileBag [t1, t2] :=
      tileBag_perm hremperm
    have hct : tileBag ct = tileBag [d, t1, t2] := tileBag_perm hperm
    have hpileE := tileBag_eraseP s.discardPile d.id hd
    have hw : (processClaimChow s pi d).2.wall = s.wall := by
      simp only [processClaimChow, hfc]
    have hf : (processClaimChow s pi d).2.flowerWall = s.flowerWall := by
      simp only [processClaimChow, hfc]
    have hpl : (processClaimChow s pi d).2.players = s.players.set pi
        { playerAt s.players pi with
            hand := (ct.filter (fun t => t.id != d.id)).foldl
              (fun h tile => h.eraseP (fun t => t.id == tile.id))
              (playerAt s.players pi).hand,
            melds := (playerAt s.players pi).melds ++
              [{ type := MeldType.chow, tiles := ct, isConcealed := false,
                 claimedFrom := some s.currentPlayer }] } := by
      simp only [processClaimChow, hfc]
    have hpile : (processClaimChow s pi d).2.discardPile =
        s.discardPile.eraseP (fun t => t.id == d.id) := by
      simp only [processClaimChow, hfc]
    have hldn : (processClaimChow s pi d).2.lastDiscard = none := by
      simp only [processClaimChow, hfc]
    obtain ⟨L, R, hE1, hE2⟩ := flatMap_set_expand s.players pi
      { playerAt s.players pi with
          hand := (ct.filter (fun t => t.id != d.id)).foldl
            (fun h tile => h.eraseP (fun t => t.id == tile.id))
            (playerAt s.players pi).hand,
          melds := (playerAt s.players pi).melds ++
            [{ type := MeldType.chow, tiles := ct, isConcealed := false,
               claimedFrom := some s.currentPlayer }] } hpi
    constructor
    · rw [idBag_of_fields _ _ _ _ _ hw hf hpl hpile, idBag_eq, hE2, hE1,
        playerTiles_bag, playerTiles_bag]
      dsimp only
      rw [List.flatMap_append, tileBag_append]
      rw [show tileBag (List.flatMap
          [({ type := MeldType.chow, tiles := ct, isConcealed := false,
              claimedFrom := some s.currentPlayer } : Meld)] (fun m => m.tiles)) =
        tileBag ct by simp]
      rw [hct, tileBag_cons, ← hfold, hremc, ← hpileE, ← Multiset.singleton_add]
      abel
    · intro u hu
      rw [hldn] at hu
      cases hu

end Mahjong

namespace Mahjong

/-- An accepted pung claim conserves the id bag and clears the open
discard. -/
theorem processClaimPung_inv (s : GameState) (pid : String) (pi : Nat) (d : Tile)
    (hpi : pi < s.players.length) (hnod : NodupIds s)
    (hd : d.id ∈ s.discardPile.map (fun t => t.id)) (hlink : LastDiscardLinked s) :
    idBag (processClaimPung s pid pi d).2 = idBag s ∧
      LastDiscardLinked (processClaimPung s pid pi d).2 := by
  by_cases hp :
      ((((playerAt s.players pi).hand.filter (fun t => tilesMatch t d)).take 2).length == 2) =
        true
  · obtain ⟨hndh, _⟩ := hand_ids_clean s pi hpi hnod
    have hrem_sub : List.Sublist
        (((playerAt s.players pi).hand.filter (fun t => tilesMatch t d)).take 2)
        (playerAt s.players pi).hand :=
      (List.take_sublist _ _).trans (List.filter_sublist _)
    have hfold := foldl_eraseP_tileBag
      (((playerAt s.players pi).hand.filter (fun t => tilesMatch t d)).take 2)
      (playerAt s.players pi).hand (hndh.sublist (hrem_sub.map _))
      (fun x hx => hrem_sub.subset hx)
    have hpileE := tileBag_eraseP s.discardPile d.id hd
    have hw : (processClaimPung s pid pi d).2.wall = s.wall := by
      simp only [processClaimPung, recordAmbition, hp, if_true]
    have hf : (processClaimPung s pid pi d).2.flowerWall = s.flowerWall := by
      simp only [processClaimPung, recordAmbition, hp, if_true]
    have hpl : (processClaimPung s pid pi d).2.players = s.players.set pi
        { playerAt s.players pi with
            hand := (((playerAt s.players pi).hand.filter (fun t => tilesMatch t d)).take
              2).foldl (fun h tile => h.eraseP (fun t => t.id == tile.id))
              (playerAt s.players pi).hand,
            melds := (playerAt s.players pi).melds ++
              [{ type := MeldType.pung,
                 tiles := d ::
                   ((playerAt s.players pi).hand.filter (fun t => tilesMatch t d)).take 2,
                 isConcealed := false, claimedFrom := some s.currentPlayer }] } := by
      simp only [processClaimPung, recordAmbition, hp, if_true]
    have hpile : (processClaimPung s pid pi d).2.discardPile =
        s.discardPile.eraseP (fun t => t.id == d.id) := by
      simp only [processClaimPung, recordAmbition, hp, if_true]
    have hldn : (processClaimPung s pid pi d).2.lastDiscard = none := by
      simp only [processClaimPung, recordAmbition, hp, if_true]
    obtain ⟨L, R, hE1, hE2⟩ := flatMap_set_expand s.players pi
      { playerAt s.players pi with
          hand := (((playerAt s.players pi).hand.filter (fun t => tilesMatch t d)).take
            2).foldl (fun h tile => h.eraseP (fun t => t.id == tile.id))
            (playerAt s.players pi).hand,
          melds := (playerAt s.players pi).melds ++
            [{ type := MeldType.pung,
               tiles := d ::
                 ((playerAt s.players pi).hand.filter (fun t => tilesMatch t d)).take 2,
               isConcealed := false, claimedFrom := some s.currentPlayer }] } hpi
    constructor
    · rw [idBag_of_fields _ _ _ _ _ hw hf hpl hpile, idBag_eq, hE2, hE1,
        playerTiles_bag, playerTiles_bag]
      dsimp only
      rw [List.flatMap_append, tileBag_append]
      rw [show tileBag (List.flatMap
          [({ type := MeldType.pung,
              tiles := d ::
                ((playerAt s.players pi).hand.filter (fun t => tilesMatch t d)).take 2,
              isConcealed := false, claimedFrom := some s.currentPlayer } : Meld)]
            (fun m => m.tiles)) =
          tileBag (d ::
            ((playerAt s.players pi).hand.filter (fun t => tilesMatch t d)).take 2)
        by simp]
      rw [tileBag_cons, ← hfold, ← hpileE, ← Multiset.singleton_add]
      abel
    · intro u hu
      rw [hldn] at hu
      cases hu
  · rw [show (processClaimPung s pid pi d).2 = s by
      simp only [Bool.not_eq_true] at hp
      simp only [processClaimPung, hp, Bool.false_eq_true, if_false]]
    exact ⟨rfl, hlink⟩

/-- The meld-forming half of a kong conserves the id bag and keeps the
wall, flower wall and player count. -/
theorem applyKongMeld_inv (s : GameState) (pi : Nat) (d : Tile)
    (hpi : pi < s.players.length) (hnod : NodupIds s)
    (hd : d.id ∈ s.discardPile.map (fun t => t.id)) :
    idBag (applyKongMeld s pi d) = idBag s ∧
      (applyKongMeld s pi d).players.length = s.players.length := by
  obtain ⟨hndh, _⟩ := hand_ids_clean s pi hpi hnod
  have hrem_sub : List.Sublist
      (((playerAt s.players pi).hand.filter (fun t => tilesMatch t d)).take 3)
      (playerAt s.players pi).hand :=
    (List.take_sublist _ _).trans (List.filter_sublist _)
  have hfold := foldl_eraseP_tileBag
    (((playerAt s.players pi).hand.filter (fun t => tilesMatch t d)).take 3)
    (playerAt s.players pi).hand (hndh.sublist (hrem_sub.map _))
    (fun x hx => hrem_sub.subset hx)
  have hpileE := tileBag_eraseP s.discardPile d.id hd
  have hw : (applyKongMeld s pi d).wall = s.wall := by
    simp only [applyKongMeld]
  have hf : (applyKongMeld s pi d).flowerWall = s.flowerWall := by
    simp only [applyKongMeld]
  have hpl : (applyKongMeld s pi d).players = s.players.set pi
      { playerAt s.players pi with
          hand := (((playerAt s.players pi).hand.filter (fun t => tilesMatch t d)).take
            3).foldl (fun h tile => h.eraseP (fun t => t.id == tile.id))
            (playerAt s.players pi).hand,
          melds := (playerAt s.players pi).melds ++
            [{ type := MeldType.kong,
               tiles := d ::
                 ((playerAt s.players pi).hand.filter (fun t => tilesMatch t d)).take 3,
               isConcealed := false, claimedFrom := some s.currentPlayer }] } := by
    simp only [applyKongMeld]
  have hpile : (applyKongMeld s pi d).discardPile =
      s.discardPile.eraseP (fun t => t.id == d.id) := by
    simp only [applyKongMeld]
  obtain ⟨L, R, hE1, hE2⟩ := flatMap_set_expand s.players pi
    { playerAt s.players pi with
        hand := (((playerAt s.players pi).hand.filter (fun t => tilesMatch t d)).take
          3).foldl (fun h tile => h.eraseP (fun t => t.id == tile.id))
          (playerAt s.players pi).hand,
        melds := (playerAt s.players pi).melds ++
          [{ type := MeldType.kong,
             tiles := d ::
               ((playerAt s.players pi).hand.filter (fun t => tilesMatch t d)).take 3,
             isConcealed := false, claimedFrom := some s.currentPlayer }] } hpi
  constructor
  · rw [idBag_of_fields _ _ _ _ _ hw hf hpl hpile, idBag_eq, hE2, hE1,
      playerTiles_bag, playerTiles_bag]
    dsimp only
    rw [List.flatMap_append, tileBag_append]
    rw [show tileBag (List.flatMap
        [({ type := MeldType.kong,
            tiles := d ::
              ((playerAt s.players pi).hand.filter (fun t => tilesMatch t d)).take 3,
            isConcealed := false, claimedFrom := some s.currentPlayer } : Meld)]
          (fun m => m.tiles)) =
        tileBag (d ::
          ((playerAt s.players pi).hand.filter (fun t => tilesMatch t d)).take 3)
      by simp]
    rw [tileBag_cons, ← hfold, ← hpileE, ← Multiset.singleton_add]
    abel
  · rw [hpl, List.length_set]

/-- An accepted kong claim conserves the id bag and clears the open
discard. -/
theorem processClaimKong_inv (s : GameState) (pid : String) (pi : Nat) (d : Tile)
    (hpi : pi < s.players.length) (hnod : NodupIds s)
    (hd : d.id ∈ s.discardPile.map (fun t => t.id)) (hlink : LastDiscardLinked s) :
    idBag (processClaimKong s pid pi d).2 = idBag s ∧
      LastDiscardLinked (processClaimKong s pid pi d).2 := by
  by_cases htake :
      ((((playerAt s.players pi).hand.filter (fun t => tilesMatch t d)).take 3).length == 3) =
        true
  · obtain ⟨hbag, hlen⟩ := applyKongMeld_inv s pi d hpi hnod hd
    have hshape : (processClaimKong s pid pi d).2 =
        { recordAmbition (drawTile (applyKongMeld s pi d) pi).2 pid AmbitionType.kang (1/4)
            with currentPlayer := pi, phase := Phase.discard, lastDiscard := none,
                 hasDrawnThisTurn := true } := by
      unfold processClaimKong
      dsimp only
      rw [htake, if_pos rfl]
    rw [hshape]
    constructor
    · calc idBag { recordAmbition (drawTile (applyKongMeld s pi d) pi).2 pid
            AmbitionType.kang (1/4)
            with currentPlayer := pi, phase := Phase.discard, lastDiscard := none,
                 hasDrawnThisTurn := true }
          = idBag (drawTile (applyKongMeld s pi d) pi).2 := rfl
        _ = idBag (applyKongMeld s pi d) := drawTile_idBag _ pi (hlen ▸ hpi)
        _ = idBag s := hbag
    · intro u hu
      exact Option.noConfusion hu
  · rw [show (processClaimKong s pid pi d).2 = s by
      simp only [Bool.not_eq_true] at htake
      simp only [processClaimKong, htake, Bool.false_eq_true, if_false]]
    exact ⟨rfl, hlink⟩

/-- A win claim conserves the id bag and leaves the last-discard link
intact. -/
theorem processClaimWin_inv (s : GameState) (pid : String) (pi : Nat) (d : Tile)
    (hlink : LastDiscardLinked s) :
    idBag (processClaimWin s pid pi d).2 = idBag s ∧
      LastDiscardLinked (processClaimWin s pid pi d).2 := by
  by_cases hwv : (isWinningHand ((playerAt s.players pi).hand ++ [d])
      (playerAt s.players pi).melds (playerAt s.players pi).flowers).isValid = true
  · obtain ⟨amb, hamb⟩ := foldl_recordAmbition_eq pid
      (isWinningHand ((playerAt s.players pi).hand ++ [d])
        (playerAt s.players pi).melds (playerAt s.players pi).flowers).ambitions
      { s with status := GameStatus.finished, winner := some pi }
    have hP2 : (processClaimWin s pid pi d).2 =
        (isWinningHand ((playerAt s.players pi).hand ++ [d])
          (playerAt s.players pi).melds (playerAt s.players pi).flowers).ambitions.foldl
          (fun st a => recordAmbition st pid a (getAmbitionPayout a))
          { s with status := GameStatus.finished, winner := some pi } := by
      simp only [processClaimWin, hwv, if_true]
    rw [hP2, hamb]
    exact ⟨rfl, fun u hu => hlink u hu⟩
  · rw [show (processClaimWin s pid pi d).2 = s by
      simp only [Bool.not_eq_true] at hwv
      simp only [processClaimWin, hwv, Bool.false_eq_true, if_false]]
    exact ⟨rfl, hlink⟩

/-- `processClaim` conserves the id bag and the last-discard link,
whatever the claim. -/
theorem processClaim_inv (s : GameState) (c : ClaimAction)
    (hnod : NodupIds s) (hlink : LastDiscardLinked s) :
    idBag (processClaim s c).2 = idBag s ∧ LastDiscardLinked (processClaim s c).2 := by
  by_cases hv : isValidClaim s c
  · cases hidx : s.players.findIdx? (fun p => p.id == c.playerId) with
    | none =>
      rw [show (processClaim s c).2 = s by simp [processClaim, hv, hidx]]
      exact ⟨rfl, hlink⟩
    | some pi =>
      have hpi : pi < s.players.length := (List.findIdx?_eq_some_iff_findIdx_eq.mp hidx).1
      cases hld : s.lastDiscard with
      | none =>
        rw [show (processClaim s c).2 = s by simp [processClaim, hv, hidx, hld]]
        exact ⟨rfl, hlink⟩
      | some d =>
        have hd : d.id ∈ s.discardPile.map (fun t => t.id) := hlink d hld
        cases hty : c.type with
        | chow =>
          rw [show (processClaim s c).2 = (processClaimChow s pi d).2 by
            simp [processClaim, hv, hidx, hld, hty]]
          exact processClaimChow_inv s pi d hpi hnod hd hlink
        | pung =>
          rw [show (processClaim s c).2 = (processClaimPung s c.playerId pi d).2 by
            simp [processClaim, hv, hidx, hld, hty]]
          exact processClaimPung_inv s c.playerId pi d hpi hnod hd hlink
        | kong =>
          rw [show (processClaim s c).2 = (processClaimKong s c.playerId pi d).2 by
            simp [processClaim, hv, hidx, hld, hty]]
          exact processClaimKong_inv s c.playerId pi d hpi hnod hd hlink
        | win =>
          rw [show (processClaim s c).2 = (processClaimWin s c.playerId pi d).2 by
            simp [processClaim, hv, hidx, hld, hty]]
          exact processClaimWin_inv s c.playerId pi d hlink
  · rw [show (processClaim s c).2 = s by simp [processClaim, hv]]
    exact ⟨rfl, hlink⟩

end Mahjong

namespace Mahjong

/-- Every state reachable from a start state with duplicate-free ids and a
linked open discard keeps the start state's id bag and the link. -/
theorem reachable_inv (s₀ : GameState) (hnod : NodupIds s₀)
    (hlink : LastDiscardLinked s₀) :
    ∀ s, Reachable s₀ s → idBag s = idBag s₀ ∧ LastDiscardLinked s := by
  intro s h
  induction h with
  | refl => exact ⟨rfl, hlink⟩
  | draw i h hi ih =>
    obtain ⟨hld, hpile, _, _⟩ := drawTile_frame _ i
    refine ⟨(drawTile_idBag _ i hi).trans ih.1, ?_⟩
    intro u hu
    rw [hld] at hu
    rw [hpile]
    exact ih.2 u hu
  | disc i t h ih =>
    obtain ⟨h1, h2⟩ := discardTile_inv _ i t ih.2
    exact ⟨h1.trans ih.1, h2⟩
  | claim c h ih =>
    rename_i s'
    have hnods : NodupIds s' := by
      rw [NodupIds_iff_idBag, ih.1, ← NodupIds_iff_idBag]
      exact hnod
    obtain ⟨h1, h2⟩ := processClaim_inv s' c hnods ih.2
    exact ⟨h1.trans ih.1, h2⟩

/-- The bonus-replacement scan conserves the hand-flowers-wall pool. -/
theorem ensureScan_bag (n : Nat) :
    ∀ hand flowers wall : List Tile,
      tileBag (ensureScan n hand flowers wall).1 +
        tileBag (ensureScan n hand flowers wall).2.1 +
        tileBag (ensureScan n hand flowers wall).2.2.1 =
      tileBag hand + tileBag flowers + tileBag wall := by
  induction n with
  | zero => intro hand flowers wall; rw [ensureScan]
  | succ n ih =>
    intro hand flowers wall
    cases hget : hand.get? n with
    | none => simp only [ensureScan, hget]; exact ih hand flowers wall
    | some t =>
      by_cases hb : t.isBonus = true
      · have hget2 : hand[n]? = some t := by
          rw [← List.get?_eq_getElem?]
          exact hget
        obtain ⟨hn, hnt⟩ := List.getElem?_eq_some_iff.mp hget2
        have hdecomp : hand = hand.take n ++ t :: hand.drop (n + 1) := by
          conv_lhs => rw [← List.take_append_drop n hand]
          rw [← List.getElem_cons_drop hand n hn, hnt]
        have hbe : tileBag (hand.eraseIdx n) + {t.id} = tileBag hand := by
          rw [List.eraseIdx_eq_take_drop_succ, tileBag_append]
          conv_rhs => rw [hdecomp]
          rw [tileBag_append, tileBag_cons, ← Multiset.singleton_add]
          abel
        cases wall with
        | nil =>
          rcases hsc : ensureScan n (hand.eraseIdx n) (flowers ++ [t]) [] with ⟨h1, f1, w1, fl1⟩
          rw [show ensureScan (n + 1) hand flowers [] = (h1, f1, w1, true) by
            simp only [ensureScan, hget, hb, if_true, hsc]]
          have hih := ih (hand.eraseIdx n) (flowers ++ [t]) []
          rw [hsc] at hih
          dsimp only at hih
          rw [hih, tileBag_append, tileBag_singleton, ← hbe, tileBag_nil]
          abel
        | cons r wall' =>
          rcases hsc : ensureScan n (hand.eraseIdx n ++ [r]) (flowers ++ [t]) wall'
            with ⟨h1, f1, w1, fl1⟩
          rw [show ensureScan (n + 1) hand flowers (r :: wall') = (h1, f1, w1, true) by
            simp only [ensureScan, hget, hb, if_true, hsc]]
          have hih := ih (hand.eraseIdx n ++ [r]) (flowers ++ [t]) wall'
          rw [hsc] at hih
          dsimp only at hih
          rw [hih, tileBag_append, tileBag_append, tileBag_singleton, tileBag_singleton,
            ← hbe, tileBag_cons, ← Multiset.singleton_add]
          abel
      · simp only [Bool.not_eq_true] at hb
        simp only [ensureScan, hget, hb, Bool.false_eq_true, if_false]
        exact ih hand flowers wall

/-- The fuelled replacement loop conserves the pool. -/
theorem ensureLoop_bag (fuel : Nat) :
    ∀ hand flowers wall : List Tile,
      tileBag (ensureLoop fuel hand flowers wall).1 +
        tileBag (ensureLoop fuel hand flowers wall).2.1 +
        tileBag (ensureLoop fuel hand flowers wall).2.2 =
      tileBag hand + tileBag flowers + tileBag wall := by
  induction fuel with
  | zero => intro hand flowers wall; rw [ensureLoop]
  | succ fuel ih =>
    intro hand flowers wall
    rcases hsc : ensureScan hand.length hand flowers wall with ⟨h1, f1, w1, flag⟩
    have hscb := ensureScan_bag hand.length hand flowers wall
    rw [hsc] at hscb
    dsimp only at hscb
    cases flag with
    | true =>
      rw [show ensureLoop (fuel + 1) hand flowers wall = ensureLoop fuel h1 f1 w1 by
        simp only [ensureLoop, hsc, if_true]]
      rw [ih h1 f1 w1, hscb]
    | false =>
      rw [show ensureLoop (fuel + 1) hand flowers wall = (h1, f1, w1) by
        simp only [ensureLoop, hsc, Bool.false_eq_true, if_false]]
      exact hscb

/-- The 16-tile top-up conserves the pool. -/
theorem fillHand_bag (wall : List Tile) :
    ∀ hand flowers : List Tile,
      tileBag (fillHand hand flowers wall).1 + tileBag (fillHand hand flowers wall).2.1 +
        tileBag (fillHand hand flowers wall).2.2 =
      tileBag hand + tileBag flowers + tileBag wall := by
  induction wall with
  | nil => intro hand flowers; rw [fillHand]
  | cons t w ih =>
    intro hand flowers
    by_cases hlen : hand.length < 16
    · by_cases hb : t.isBonus = true
      · rw [show fillHand hand flowers (t :: w) = fillHand hand (flowers ++ [t]) w by
          rw [fillHand, if_pos hlen, if_pos hb]]
        rw [ih hand (flowers ++ [t]), tileBag_append, tileBag_singleton, tileBag_cons,
          ← Multiset.singleton_add]
        abel
      · rw [show fillHand hand flowers (t :: w) = fillHand (hand ++ [t]) flowers w by
          rw [fillHand, if_pos hlen, if_neg hb]]
        rw [ih (hand ++ [t]) flowers, tileBag_append, tileBag_singleton, tileBag_cons,
          ← Multiset.singleton_add]
        abel
    · rw [show fillHand hand flowers (t :: w) = (hand, flowers, t :: w) by
        rw [fillHand, if_neg hlen]]

end Mahjong

namespace Mahjong

/-- `ensureCorrectHandSize` conserves the id bag and keeps the player count
and the open discard. -/
theorem ensureCorrectHandSize_inv (s : GameState) (i : Nat) (hi : i < s.players.length) :
    idBag (ensureCorrectHandSize s i) = idBag s ∧
    (ensureCorrectHandSize s i).players.length = s.players.length ∧
    (ensureCorrectHandSize s i).lastDiscard = s.lastDiscard := by
  rcases hEL : ensureLoop (countBonus (playerAt s.players i).hand + countBonus s.wall + 1)
    (playerAt s.players i).hand (playerAt s.players i).flowers s.wall with ⟨h1, f1, w1⟩
  rcases hFH : fillHand h1 f1 w1 with ⟨h2, f2, w2⟩
  have hshape : ensureCorrectHandSize s i =
      { s with players := s.players.set i
                 { playerAt s.players i with hand := h2, flowers := f2 },
               wall := w2 } := by
    unfold ensureCorrectHandSize
    dsimp only
    rw [hEL]
    dsimp only
    rw [hFH]
  have hL := ensureLoop_bag (countBonus (playerAt s.players i).hand + countBonus s.wall + 1)
    (playerAt s.players i).hand (playerAt s.players i).flowers s.wall
  rw [hEL] at hL
  dsimp only at hL
  have hF := fillHand_bag w1 h1 f1
  rw [hFH] at hF
  dsimp only at hF
  have hpool : tileBag h2 + tileBag f2 + tileBag w2 =
      tileBag (playerAt s.players i).hand + tileBag (playerAt s.players i).flowers +
        tileBag s.wall := hF.trans hL
  obtain ⟨L, R, hE1, hE2⟩ := flatMap_set_expand s.players i
    { playerAt s.players i with hand := h2, flowers := f2 } hi
  refine ⟨?_, ?_, ?_⟩
  · rw [hshape, idBag_eq, idBag_eq]
    dsimp only
    rw [hE2, hE1, playerTiles_bag, playerTiles_bag]
    dsimp only
    calc tileBag w2 + tileBag s.flowerWall +
          (L + (tileBag h2 +
            tileBag ((playerAt s.players i).melds.flatMap (fun m => m.tiles)) +
            tileBag f2) + R) + tileBag s.discardPile
        = (tileBag h2 + tileBag f2 + tileBag w2) +
            (tileBag s.flowerWall + L +
              tileBag ((playerAt s.players i).melds.flatMap (fun m => m.tiles)) + R +
              tileBag s.discardPile) := by abel
      _ = (tileBag (playerAt s.players i).hand + tileBag (playerAt s.players i).flowers +
            tileBag s.wall) +
            (tileBag s.flowerWall + L +
              tileBag ((playerAt s.players i).melds.flatMap (fun m => m.tiles)) + R +
              tileBag s.discardPile) := by rw [hpool]
      _ = tileBag s.wall + tileBag s.flowerWall +
            (L + (tileBag (playerAt s.players i).hand +
              tileBag ((playerAt s.players i).melds.flatMap (fun m => m.tiles)) +
              tileBag (playerAt s.players i).flowers) + R) + tileBag s.discardPile := by abel
  · rw [hshape]
    exact List.length_set s.players i _
  · rw [hshape]

/-- The per-player setup fold conserves the id bag, the player count and the
open discard. -/
theorem ensureFold_inv (l : List Nat) :
    ∀ s : GameState, (∀ j ∈ l, j < s.players.length) →
      idBag (l.foldl (fun st i => ensureCorrectHandSize st i) s) = idBag s ∧
      (l.foldl (fun st i => ensureCorrectHandSize st i) s).players.length =
        s.players.length ∧
      (l.foldl (fun st i => ensureCorrectHandSize st i) s).lastDiscard = s.lastDiscard := by
  induction l with
  | nil => intro s _; exact ⟨rfl, rfl, rfl⟩
  | cons j rest ih =>
    intro s hj
    rw [List.foldl_cons]
    obtain ⟨h1, h2, h3⟩ := ensureCorrectHandSize_inv s j (hj j (by simp))
    obtain ⟨g1, g2, g3⟩ := ih (ensureCorrectHandSize s j)
      (fun k hk => by rw [h2]; exact hj k (List.mem_cons_of_mem _ hk))
    exact ⟨g1.trans h1, g2.trans h2, g3.trans h3⟩

/-- The four-round deal conserves the wall-plus-players pool and the player
count. -/
theorem dealFold_inv (order : List Nat) :
    ∀ (wall : List Tile) (ps : List Player), (∀ j ∈ order, j < ps.length) →
      tileBag (order.foldl dealStep (wall, ps)).1 +
        tileBag ((order.foldl dealStep (wall, ps)).2.flatMap playerTiles) =
      tileBag wall + tileBag (ps.flatMap playerTiles) ∧
      (order.foldl dealStep (wall, ps)).2.length = ps.length := by
  induction order with
  | nil => intro wall ps _; exact ⟨rfl, rfl⟩
  | cons j rest ih =>
    intro wall ps hj
    have hjlt : j < ps.length := hj j (by simp)
    have hstep : dealStep (wall, ps) j = (wall.drop 4,
        ps.set j { playerAt ps j with hand := (playerAt ps j).hand ++ wall.take 4 }) := rfl
    rw [List.foldl_cons, hstep]
    obtain ⟨ihb, ihl⟩ := ih (wall.drop 4)
      (ps.set j { playerAt ps j with hand := (playerAt ps j).hand ++ wall.take 4 })
      (fun k hk => by rw [List.length_set]; exact hj k (List.mem_cons_of_mem _ hk))
    refine ⟨?_, by rw [ihl, List.length_set]⟩
    rw [ihb]
    obtain ⟨L, R, hE1, hE2⟩ := flatMap_set_expand ps j
      { playerAt ps j with hand := (playerAt ps j).hand ++ wall.take 4 } hjlt
    rw [hE2, hE1, playerTiles_bag, playerTiles_bag]
    dsimp only
    rw [tileBag_append]
    rw [show tileBag wall = tileBag (wall.take 4) + tileBag (wall.drop 4) by
      rw [← tileBag_append, List.take_append_drop]]
    abel

end Mahjong

namespace Mahjong

/-- `initializeGame` unfolded to its pipeline: the bonus/regular split, the
four-round deal, the per-player flower fixup and the dealer's draw. -/
theorem initializeGame_shape (players : List Player) (tiles : List Tile) (dealerIndex : Nat) :
    ∃ wall1 ps1,
      dealOrder.foldl dealStep (tiles.filter (fun t => !t.isBonus),
        players.enum.map (fun ip =>
          { ip.2 with hand := ([] : List Tile), melds := ([] : List Meld),
                      flowers := ([] : List Tile), discards := ([] : List Tile),
                      isDealer := ip.1 == dealerIndex })) = (wall1, ps1) ∧
      initializeGame players tiles dealerIndex =
        (drawTile ((List.range ps1.length).foldl (fun st i => ensureCorrectHandSize st i)
          { players := ps1, currentPlayer := dealerIndex, dealer := dealerIndex,
            wall := wall1, flowerWall := tiles.filter (fun t => t.isBonus),
            discardPile := [], phase := Phase.discard,
            hasDrawnThisTurn := false }) dealerIndex).2 := by
  rcases hDF : dealOrder.foldl dealStep (tiles.filter (fun t => !t.isBonus),
    players.enum.map (fun ip =>
      { ip.2 with hand := ([] : List Tile), melds := ([] : List Meld),
                  flowers := ([] : List Tile), discards := ([] : List Tile),
                  isDealer := ip.1 == dealerIndex })) with ⟨wall1, ps1⟩
  refine ⟨wall1, ps1, hDF, ?_⟩
  unfold initializeGame
  dsimp only
  rw [hDF]

/-- `initializeGame` holds exactly the input tiles across its holders and
opens with no last discard. -/
theorem initializeGame_inv (players : List Player) (tiles : List Tile) (dealerIndex : Nat)
    (hps : players.length = 4) (hd : dealerIndex < 4) :
    idBag (initializeGame players tiles dealerIndex) = tileBag tiles ∧
    (initializeGame players tiles dealerIndex).lastDiscard = none := by
  obtain ⟨wall1, ps1, hDF, hshape⟩ := initializeGame_shape players tiles dealerIndex
  have hps0 : (players.enum.map (fun ip =>
      { ip.2 with hand := ([] : List Tile), melds := ([] : List Meld),
                  flowers := ([] : List Tile), discards := ([] : List Tile),
                  isDealer := ip.1 == dealerIndex })).flatMap playerTiles = [] := by
    rw [List.flatMap_eq_nil_iff]
    intro p hp
    obtain ⟨ip, _, rfl⟩ := List.mem_map.mp hp
    rfl
  have hps0len : (players.enum.map (fun ip =>
      { ip.2 with hand := ([] : List Tile), melds := ([] : List Meld),
                  flowers := ([] : List Tile), discards := ([] : List Tile),
                  isDealer := ip.1 == dealerIndex })).length = 4 := by
    rw [List.length_map, List.enum_length, hps]
  have hdo : ∀ j ∈ dealOrder, j < 4 := by decide
  obtain ⟨hDB, hDL⟩ := dealFold_inv dealOrder (tiles.filter (fun t => !t.isBonus))
    (players.enum.map (fun ip =>
      { ip.2 with hand := ([] : List Tile), melds := ([] : List Meld),
                  flowers := ([] : List Tile), discards := ([] : List Tile),
                  isDealer := ip.1 == dealerIndex }))
    (fun j hj => by rw [hps0len]; exact hdo j hj)
  rw [hDF] at hDB hDL
  dsimp only at hDB hDL
  rw [hps0, tileBag_nil, add_zero] at hDB
  rw [hps0len] at hDL
  obtain ⟨hEB, hEL2, hELD⟩ := ensureFold_inv (List.range ps1.length)
    { players := ps1, currentPlayer := dealerIndex, dealer := dealerIndex,
      wall := wall1, flowerWall := tiles.filter (fun t => t.isBonus),
      discardPile := [], phase := Phase.discard, hasDrawnThisTurn := false }
    (fun j hj => by
      rw [show ({ players := ps1, currentPlayer := dealerIndex, dealer := dealerIndex,
                  wall := wall1, flowerWall := tiles.filter (fun t => t.isBonus),
                  discardPile := [], phase := Phase.discard,
                  hasDrawnThisTurn := false } : GameState).players.length = ps1.length from rfl]
      exact List.mem_range.mp hj)
  have hdd : dealerIndex <
      ((List.range ps1.length).foldl (fun st i => ensureCorrectHandSize st i)
        { players := ps1, currentPlayer := dealerIndex, dealer := dealerIndex,
          wall := wall1, flowerWall := tiles.filter (fun t => t.isBonus),
          discardPile := [], phase := Phase.discard,
          hasDrawnThisTurn := false }).players.length := by
    rw [hEL2]
    rw [show ({ players := ps1, currentPlayer := dealerIndex, dealer := dealerIndex,
                wall := wall1, flowerWall := tiles.filter (fun t => t.isBonus),
                discardPile := [], phase := Phase.discard,
                hasDrawnThisTurn := false } : GameState).players.length = ps1.length from rfl, hDL]
    exact hd
  have hsplit : tileBag (tiles.filter (fun t => t.isBonus)) +
      tileBag (tiles.filter (fun t => !t.isBonus)) = tileBag tiles := by
    rw [← tileBag_append]
    exact tileBag_perm (List.filter_append_perm _ tiles)
  constructor
  · rw [hshape, drawTile_idBag _ dealerIndex hdd, hEB, idBag_eq]
    dsimp only
    rw [tileBag_nil, add_zero, ← hsplit]
    calc tileBag wall1 + tileBag (tiles.filter (fun t => t.isBonus)) +
          tileBag (ps1.flatMap playerTiles)
        = (tileBag wall1 + tileBag (ps1.flatMap playerTiles)) +
            tileBag (tiles.filter (fun t => t.isBonus)) := by abel
      _ = tileBag (tiles.filter (fun t => !t.isBonus)) +
            tileBag (tiles.filter (fun t => t.isBonus)) := by rw [hDB]
      _ = tileBag (tiles.filter (fun t => t.isBonus)) +
            tileBag (tiles.filter (fun t => !t.isBonus)) := by abel
  · rw [hshape, (drawTile_frame _ dealerIndex).1, hELD]

end Mahjong

namespace Mahjong

set_option maxRecDepth 100000

/-- C1 (amended): in every state reachable from `initializeGame` — four
players, any 144-tile shuffled set with pairwise-distinct instance ids, a
dealer index below 4 — by any sequence of `drawTile`, `discardTile` and
`processClaim`, the conserved total is 144; the conserved holders are the
wall, the flower wall, every player's hand, meld tiles and flower
collection, and the shared discard pile (not the per-player discard
lists, which keep a tile even after a claim moves it into a meld, and
which double-count the shared pile). -/
theorem tile_conservation_reachable (players : List Player) (tiles : List Tile)
    (dealerIndex : Nat) (s : GameState)
    (hps : players.length = 4) (hd : dealerIndex < 4) (hlen : tiles.length = 144)
    (hnod : (tiles.map (fun t => t.id)).Nodup)
    (hre : Reachable (initializeGame players tiles dealerIndex) s) :
    conservedSum s = 144 := by
  obtain ⟨hbag, hld⟩ := initializeGame_inv players tiles dealerIndex hps hd
  have hnod0 : NodupIds (initializeGame players tiles dealerIndex) := by
    rw [NodupIds_iff_idBag, hbag]
    exact Multiset.coe_nodup.mpr hnod
  have hlink0 : LastDiscardLinked (initializeGame players tiles dealerIndex) := by
    intro u hu
    rw [hld] at hu
    cases hu
  obtain ⟨hs, _⟩ := reachable_inv _ hnod0 hlink0 s hre
  have hcard : Multiset.card (idBag s) = Multiset.card (tileBag tiles) := by
    rw [hs, hbag]
  rw [idBag, tileBag_card, tileBag_card] at hcard
  rw [conservedSum, hcard, hlen]

/-- C1 counterexample to the claim as stated: at the freshly initialized
game (reachable, trivially) the claim's own sum — wall plus every player's
hand, meld tiles, per-player discard list and flower collection — is 136,
not 144: the flower wall's 8 bonus tiles sit in no holder the claim
names. -/
theorem claimSum_not_conserved :
    claimSum sInit = 136 ∧ claimSum sInit ≠ 144 ∧ Reachable sInit sInit :=
  ⟨by decide, by decide, Reachable.refl sInit⟩

/-- Witness for C1's amended statement on the canonical initial state. -/
theorem tile_conservation_reachable_witness : conservedSum sInit = 144 :=
  tile_conservation_reachable samplePlayers createTileSet 0 sInit (by decide) (by decide)
    (by decide) (by decide) (Reachable.refl sInit)

end Mahjong
